import Mathlib

/-!
# Verification of the tile decoding, image deduplication and map stitching pipeline

Shallow embedding of the Python export pipeline of `pokemon-online`:

* `src/export_scripts/utils/tileset_utils.py` and the identical copy in
  `src/export_scripts/create_zones_and_tiles.py` — the 2bpp tile decoder;
* `src/export_scripts/create_zones_and_tiles.py` — quadrant rendering,
  the content-hash deduplication store (`image_hash_to_id`,
  `block_pos_to_image_id`) and tile instantiation (`populate_tiles`);
* `src/export_scripts/export_map.py` — overworld block-grid inversion when
  storing `maps.blk_data`, and population of `tiles_raw`;
* `src/export_scripts/update_zone_coordinates.py` — the BFS map-graph
  coordinate solver.

Machine integers are modelled as `Nat`/`Int` (Python integers are unbounded),
Python exceptions as `Option`/`none`, SQL tables as lists, dictionaries as
association lists where a prepended entry shadows older ones (Python dict
assignment overwrites; `find?` returns the newest entry first).
-/

/-! ## Tile decoder (`decode_2bpp_tile`)

Python indexes `tile_data[row*2]` and `tile_data[row*2+1]` for `row < 8`;
a buffer shorter than 16 bytes raises an uncaught `IndexError`, modelled as
`none`.  The same function appears verbatim in `tileset_utils.py` and in
`create_zones_and_tiles.py`. -/

def decode_2bpp_tile (tile_data : List Nat) : Option (List (List Nat)) :=
  if 16 ≤ tile_data.length then
    some ((List.range 8).map (fun row =>
      (List.range 8).map (fun bit =>
        let bit_pos := 7 - bit
        let bit1 := (tile_data.getD (row * 2) 0 >>> bit_pos) &&& 1
        let bit2 := (tile_data.getD (row * 2 + 1) 0 >>> bit_pos) &&& 1
        (bit2 <<< 1) ||| bit1)))
  else none

/-! ## Block grids of `export_map.py`

`blkAt` is padded indexing (`blk_bytes[idx] if idx < len else 0`), used both
when the overworld grid is reshaped before inversion (lines 813–842) and,
via the pad/truncate normalisation (lines 930–937), when `tiles_raw` is
populated (lines 939–962). -/

def blkAt (blk : List Nat) (i : Nat) : Nat := blk.getD i 0

/-- The `height × width` block grid read out of a flat `.blk` byte list,
padding missing entries with `0` exactly as the source does. -/
def gridOf (blk : List Nat) (w h : Nat) : List (List Nat) :=
  (List.range h).map (fun y => (List.range w).map (fun x => blkAt blk (y * w + x)))

/-- Lines 813–842 of `export_map.py`: reshape, reverse the rows, flatten. -/
def invert_blk (blk : List Nat) (w h : Nat) : List Nat :=
  ((gridOf blk w h).reverse).flatten

/-- The `blk_data` stored in the `maps` table: inverted for overworld maps,
the raw bytes otherwise. -/
def maps_blk_data (blk : List Nat) (w h : Nat) (is_overworld : Bool) : List Nat :=
  if is_overworld then invert_blk blk w h else blk

/-- Lines 930–937 of `export_map.py`: pad with zeros up to `w*h`, truncate
beyond. -/
def blkNorm (blk : List Nat) (w h : Nat) : List Nat :=
  if blk.length < w * h then blk ++ List.replicate (w * h - blk.length) 0
  else blk.take (w * h)

/-- Lines 939–962 of `export_map.py`: one `tiles_raw` row `(x, y, block_index)`
per block grid position, in row-major order, from the *non-inverted* data. -/
def tiles_raw_for (blk : List Nat) (w h : Nat) : List (Nat × Nat × Nat) :=
  (List.range h).flatMap (fun y =>
    (List.range w).map (fun x => (x, y, blkAt (blkNorm blk w h) (y * w + x))))

/-- The block-grid rows of the stored `MapRecord` (`maps.blk_data` re-chunked
into rows of `w`). -/
def map_record_rows (blk : List Nat) (w h : Nat) (is_overworld : Bool) : List (List Nat) :=
  gridOf (maps_blk_data blk w h is_overworld) w h

/-- The block rows as consumed by tile instantiation: row `y` collects the
`block_index` values of the `tiles_raw` entries with that `y`; the block at
row `y` produces the local tile rows `2*y` and `2*y+1`. -/
def inst_rows (blk : List Nat) (w h : Nat) : List (List Nat) :=
  (List.range h).map (fun y =>
    ((tiles_raw_for blk w h).filter (fun e => e.2.1 = y)).map (fun e => e.2.2))

/-! ## Quadrant rendering and the image deduplication store
(`create_zones_and_tiles.py`, `extract_tile_images`)

A rendered quadrant image is a 16×16 grid of RGB triples.  `get_image_hash`
hashes the PNG serialisation of the image with md5; since the serialisation
of a 16×16 RGB image is injective in its pixel content, the content hash is
modelled as the pixel content itself. -/

def Image : Type := List (List (Nat × Nat × Nat))

instance : DecidableEq Image := by unfold Image; infer_instance

instance : Inhabited Image := ⟨([] : List (List (Nat × Nat × Nat)))⟩

/-- Content hash, modelled as the pixel content (md5 of the PNG bytes in the
source; injective on 16×16 RGB images). -/
def get_image_hash (img : Image) : Image := img

/-- GameBoy palette (white, light gray, dark gray, black). -/
def palette : List (Nat × Nat × Nat) := [(255, 255, 255), (192, 192, 192), (96, 96, 96), (0, 0, 0)]

/-- `Image.new("RGB", (16, 16), color=(255,255,255))`. -/
def whiteImage : Image :=
  List.replicate 16 (List.replicate 16 ((255, 255, 255) : Nat × Nat × Nat))

/-- Association-list lookup with Python-dict semantics: the newest entry
(prepended) shadows older ones. -/
def dictGet {κ α : Type} [BEq κ] (l : List (κ × α)) (k : κ) : Option α :=
  (l.find? (fun p => p.1 == k)).map (·.2)

/-- `putpixel` loop: draw an 8×8 decoded tile through the palette at offset
`(offX, offY)` of a 16×16 image. -/
def blit (img : Image) (offX offY : Nat) (tp : List (List Nat)) : Image :=
  (List.range 16).map (fun yy => (List.range 16).map (fun xx =>
    if offY ≤ yy ∧ yy < offY + 8 ∧ offX ≤ xx ∧ xx < offX + 8 then
      palette.getD ((tp.getD (yy - offY) []).getD (xx - offX) 0) (255, 255, 255)
    else ((img : List (List (Nat × Nat × Nat))).getD yy []).getD xx (255, 255, 255)))

/-- The four quadrant layouts (lines 221–230): each is the list of `(y, x)`
block positions of its four constituent tiles. -/
def quadrantLayouts : List (List (Nat × Nat)) :=
  [[(0, 0), (0, 1), (1, 0), (1, 1)],
   [(0, 2), (0, 3), (1, 2), (1, 3)],
   [(2, 0), (2, 1), (3, 0), (3, 1)],
   [(2, 2), (2, 3), (3, 2), (3, 3)]]

/-- The inner tile loop of one quadrant (lines 237–264).  `i` is the index
within the quadrant layout; out-of-range block positions and missing or
empty (`if not tile_data`) tile buffers are skipped; a nonempty buffer
shorter than 16 bytes makes `decode_2bpp_tile` raise, aborting everything
(`none`). -/
def renderTiles (tiles : List (Nat × List Nat)) (block_data : List Nat) :
    List (Nat × Nat) → Nat → Image → Option Image
  | [], _, img => some img
  | (y, x) :: rest, i, img =>
    let tile_pos := y * 4 + x
    if tile_pos < block_data.length then
      match dictGet tiles (blkAt block_data tile_pos) with
      | none => renderTiles tiles block_data rest (i + 1) img
      | some tile_data =>
        if tile_data.isEmpty then renderTiles tiles block_data rest (i + 1) img
        else
          match decode_2bpp_tile tile_data with
          | none => none
          | some tp => renderTiles tiles block_data rest (i + 1) (blit img ((i % 2) * 8) ((i / 2) * 8) tp)
    else renderTiles tiles block_data rest (i + 1) img

/-- Render one 16×16 quadrant image of a block. -/
def renderQuadrant (tiles : List (Nat × List Nat)) (block_data : List Nat)
    (layout : List (Nat × Nat)) : Option Image :=
  renderTiles tiles block_data layout 0 whiteImage

/-- The deduplication store: `image_hash_to_id` and `block_pos_to_image_id`
dictionaries plus the `tile_images` table rows `(id, tileset, block, quadrant,
image)`. -/
structure Store where
  image_hash_to_id : List (Image × Nat)
  tile_images : List (Nat × Nat × Nat × Nat × Image)
  block_pos_to_image_id : List ((Nat × Nat × Nat) × Nat)
deriving DecidableEq

def emptyStore : Store := ⟨[], [], []⟩

/-- `TILESET_ALIASES` of `config.py`: aliased tile set → canonical tile set. -/
def TILESET_ALIASES : List (Nat × Nat) := [(5, 7), (2, 6)]

/-- Record `(tileset_id, block_index, position) → id`, and propagate to the
aliased tile set when interning under a canonical one (lines 273–285 and
304–312: GYM `7 → DOJO 5`, POKECENTER `6 → MART 2`). -/
def addMappings (m : List ((Nat × Nat × Nat) × Nat)) (ts bi pos id : Nat) :
    List ((Nat × Nat × Nat) × Nat) :=
  let m1 := ((ts, bi, pos), id) :: m
  let m2 := if ts = 7 then ((5, bi, pos), id) :: m1 else m1
  if ts = 6 then ((2, bi, pos), id) :: m2 else m2

/-- One intern step of the dedup store (lines 266–315): hash the image; an
existing hash reuses its id, a new image is inserted into `tile_images`
(`id = lastrowid`, i.e. one past the current row count) and registered in
`image_hash_to_id`; either way the quadrant mappings are recorded. -/
def intern (st : Store) (ts bi pos : Nat) (img : Image) : Store × Nat :=
  match dictGet st.image_hash_to_id (get_image_hash img) with
  | some id =>
    ({ st with block_pos_to_image_id := addMappings st.block_pos_to_image_id ts bi pos id }, id)
  | none =>
    let id := st.tile_images.length + 1
    ({ image_hash_to_id := (get_image_hash img, id) :: st.image_hash_to_id,
       tile_images := st.tile_images ++ [(id, ts, bi, pos, img)],
       block_pos_to_image_id := addMappings st.block_pos_to_image_id ts bi pos id }, id)

/-- A sequence of intern calls `(tileset, block, quadrant, image)`, returning
the final store and the returned ids in order. -/
def runInterns (st : Store) : List (Nat × Nat × Nat × Image) → Store × List Nat
  | [] => (st, [])
  | c :: rest =>
    let r := intern st c.1 c.2.1 c.2.2.1 c.2.2.2
    let r2 := runInterns r.1 rest
    (r2.1, r.2 :: r2.2)


/-- The list of hash keys currently interned in the store. -/
def seenKeys (st : Store) : List Image := st.image_hash_to_id.map (·.1)

/-- Well-formedness of the dedup store: hash keys are distinct, assigned ids
are distinct and bounded by the `tile_images` row count, and there is one
hash entry per stored image. -/
def StoreWF (st : Store) : Prop :=
  (st.image_hash_to_id.map (·.1)).Nodup ∧
  (st.image_hash_to_id.map (·.2)).Nodup ∧
  (∀ p ∈ st.image_hash_to_id, p.2 ≤ st.tile_images.length) ∧
  st.image_hash_to_id.length = st.tile_images.length

/-- The four-quadrant loop over one block (lines 219–315). -/
def processBlock (tiles : List (Nat × List Nat)) (ts bi : Nat) (block_data : List Nat) :
    Store → List (List (Nat × Nat)) → Nat → Option Store
  | st, [], _ => some st
  | st, layout :: rest, pos_index =>
    match renderQuadrant tiles block_data layout with
    | none => none
    | some img => processBlock tiles ts bi block_data (intern st ts bi pos_index img).1 rest (pos_index + 1)

def processBlocks (tiles : List (Nat × List Nat)) (ts : Nat) :
    Store → List (Nat × List Nat) → Option Store
  | st, [] => some st
  | st, (bi, bd) :: rest =>
    match processBlock tiles ts bi bd st quadrantLayouts 0 with
    | none => none
    | some st1 => processBlocks tiles ts st1 rest

/-- `query_tileset_id`: the alias redirection applied when fetching blockset
and tile data (lines 174–180). -/
def query_tileset_id (ts : Nat) : Nat :=
  if ts = 2 then 6 else if ts = 5 then 7 else ts

/-- The tileset loop of `extract_tile_images` over in-memory tables
`tilesets : (id, name)`, `blocksets : (tileset_id, block_index, data)` and
`tileset_tiles : (tileset_id, tile_index, data)`.  A tileset with no blocks
or no tiles is skipped (`continue`); a decode error aborts the run. -/
def extractLoop (blocksets : List (Nat × Nat × List Nat))
    (tileset_tiles : List (Nat × Nat × List Nat)) :
    Store → List (Nat × String) → Option Store
  | st, [] => some st
  | st, (tileset_id, _) :: rest =>
    let q := query_tileset_id tileset_id
    let blocks := (blocksets.filter (fun b => b.1 == q)).map (fun b => (b.2.1, b.2.2))
    if blocks.isEmpty then extractLoop blocksets tileset_tiles st rest
    else
      let tiles := (tileset_tiles.filter (fun t => t.1 == q)).map (fun t => (t.2.1, t.2.2))
      if tiles.isEmpty then extractLoop blocksets tileset_tiles st rest
      else
        match processBlocks tiles tileset_id st blocks with
        | none => none
        | some st1 => extractLoop blocksets tileset_tiles st1 rest

def extract_tile_images (tilesets : List (Nat × String))
    (blocksets : List (Nat × Nat × List Nat))
    (tileset_tiles : List (Nat × Nat × List Nat)) : Option Store :=
  extractLoop blocksets tileset_tiles emptyStore tilesets

/-! ## Tile instantiation (`populate_tiles` of `create_zones_and_tiles.py`) -/

/-- The alias resolution applied per raw tile (lines 428–434):
DOJO 5 → GYM 7, MART 2 → POKECENTER 6. -/
def lookup_tileset_id (ts : Nat) : Nat :=
  if ts = 2 then 6 else if ts = 5 then 7 else ts

/-- The quadrant-index lookup with its quadrant-0 fallback (lines 448–458).
Python's `if not tile_image_id` treats both a missing key and a stored id 0
as absent. -/
def tile_image_for (bp : List ((Nat × Nat × Nat) × Nat)) (lts bi pos : Nat) : Option Nat :=
  let v := dictGet bp (lts, bi, pos)
  if v = none ∨ v = some 0 then
    let v0 := dictGet bp (lts, bi, 0)
    if v0 = none ∨ v0 = some 0 then none else v0
  else v

/-- One row of the `tiles` table: `(x, y, local_x, local_y, map_id,
tile_image_id, is_overworld)`. -/
structure TileRec where
  x : Int
  y : Int
  local_x : Int
  local_y : Int
  map_id : Nat
  tile_image_id : Nat
  is_overworld : Bool
deriving DecidableEq, Repr

/-- Sort key of line 474: `(-t.y, t.x)` lexicographically. -/
def tileLe (a b : TileRec) : Prop :=
  b.y < a.y ∨ (a.y = b.y ∧ a.x ≤ b.x)

instance : DecidableRel tileLe := fun a b => by unfold tileLe; infer_instance

/-- The per-map body of `populate_tiles` (lines 402–474): expand every raw
tile into four quadrant tile instances, resolving image ids through
`tile_image_for` and dropping instances with no id, then sort by `(-y, x)`.
`raw` rows are `(x, y, block_index, tileset_id)` from `tiles_raw`;
`map_positions` is the optional `overworld_map_positions` table. -/
def populate_map_tiles (bp : List ((Nat × Nat × Nat) × Nat)) (map_id : Nat)
    (map_name : String) (map_positions : List (String × Int × Int))
    (is_overworld : Bool) (raw : List (Nat × Nat × Nat × Nat)) : List TileRec :=
  let inPositions := ((map_positions.find? (fun p => p.1 == map_name))).isSome
  let off : Int × Int :=
    if is_overworld ∧ inPositions then
      (((map_positions.find? (fun p => p.1 == map_name))).map (·.2)).getD (0, 0)
    else (0, 0)
  let instances := raw.flatMap (fun r =>
    (List.range 4).filterMap (fun pos =>
      (tile_image_for bp (lookup_tileset_id r.2.2.2) r.2.2.1 pos).map (fun id =>
        let tile_x : Int := (r.1 : Int) * 2 + (pos % 2 : Nat) + off.1
        let tile_y : Int := (r.2.1 : Int) * 2 + (pos / 2 : Nat) +
          (if inPositions then off.2 else 0)
        ⟨tile_x, tile_y, tile_x, tile_y, map_id, id, is_overworld⟩)))
  instances.insertionSort tileLe

/-! ## Map-graph coordinate solver (`update_zone_coordinates.py`)

State: the `maps` table (`id`, `name`), the `map_connections` table
(`from_map_id` and `to_map_id` are *names*), and the `tiles` table (only
`map_id`, `x`, `y` are relevant).  BFS from `PALLET_TOWN_MAP_ID = 0`.
Python crashes (`TypeError` on `None` arithmetic) when a referenced map has
no tiles; this is modelled by `none`. -/

structure Tile where
  mapId : Nat
  x : Int
  y : Int
deriving DecidableEq, Repr

structure Conn where
  fromName : String
  toName : String
  dir : String
  offset : Int
deriving DecidableEq, Repr

structure ZoneDB where
  maps : List (Nat × String)
  conns : List Conn
  tiles : List Tile
deriving DecidableEq, Repr

def PALLET_TOWN_MAP_ID : Nat := 0

def BLOCK_SIZE : Int := 2

def get_map_name (db : ZoneDB) (mid : Nat) : Option String :=
  (db.maps.find? (fun p => p.1 == mid)).map (·.2)

def get_map_id_by_name (db : ZoneDB) (n : String) : Option Nat :=
  (db.maps.find? (fun p => p.2 == n)).map (·.1)

def tilesOf (db : ZoneDB) (mid : Nat) : List Tile :=
  db.tiles.filter (fun t => t.mapId == mid)

/-- SQL `MAX` over a column: `none` on an empty set. -/
def listMax : List Int → Option Int
  | [] => none
  | x :: xs => some (xs.foldl max x)

/-- SQL `MIN` over a column: `none` on an empty set. -/
def listMin : List Int → Option Int
  | [] => none
  | x :: xs => some (xs.foldl min x)

/-- `get_map_dimensions`: `(MAX(x)-MIN(x)+1, MAX(y)-MIN(y)+1)` over the
map's tiles; `none` when the map has no tiles (Python's subsequent
arithmetic on `None` raises). -/
def get_map_dimensions (db : ZoneDB) (mid : Nat) : Option (Int × Int) :=
  match listMax ((tilesOf db mid).map (·.x)), listMin ((tilesOf db mid).map (·.x)),
        listMax ((tilesOf db mid).map (·.y)), listMin ((tilesOf db mid).map (·.y)) with
  | some mxx, some mnx, some mxy, some mny => some (mxx - mnx + 1, mxy - mny + 1)
  | _, _, _, _ => none

/-- `SELECT MIN(x), MIN(y) FROM tiles WHERE map_id = ?` (lines 205–208). -/
def min_xy (db : ZoneDB) (mid : Nat) : Option (Int × Int) :=
  match listMin ((tilesOf db mid).map (·.x)), listMin ((tilesOf db mid).map (·.y)) with
  | some mnx, some mny => some (mnx, mny)
  | _, _ => none

/-- `update_map_coordinates`: translate every tile of one map. -/
def update_map_coordinates (db : ZoneDB) (mid : Nat) (dx dy : Int) : ZoneDB :=
  { db with tiles := db.tiles.map (fun t =>
      if t.mapId == mid then { t with x := t.x + dx, y := t.y + dy } else t) }

/-- Direction flip of lines 259–266 (an unrecognised direction is left
unchanged). -/
def reverse_direction (d : String) : String :=
  if d = "north" then "south"
  else if d = "south" then "north"
  else if d = "east" then "west"
  else if d = "west" then "east"
  else d

/-- `calculate_map_offset` (lines 136–171).  Note `north` places the
connected map at `y = -to_height` (negative y, *above* in increasing-y
convention) and `south` at `y = from_height`; an unrecognised direction
yields `(0, 0)`.  `none` models the `TypeError` on a missing dimension. -/
def calculate_map_offset (db : ZoneDB) (from_id to_id : Nat) (direction : String)
    (connection_offset : Int) : Option (Int × Int) :=
  if direction = "north" then
    (get_map_dimensions db to_id).map (fun d => (connection_offset * BLOCK_SIZE, -d.2))
  else if direction = "south" then
    (get_map_dimensions db from_id).map (fun d => (connection_offset * BLOCK_SIZE, d.2))
  else if direction = "east" then
    (get_map_dimensions db from_id).map (fun d => (d.1, connection_offset * BLOCK_SIZE))
  else if direction = "west" then
    (get_map_dimensions db to_id).map (fun d => (-d.1, connection_offset * BLOCK_SIZE))
  else some (0, 0)

/-- The outgoing then incoming connection rows for a map name (lines
226–245); a `None` map name matches no row (SQL `= NULL`).  Each element is
`(connected_map_name, direction, offset)`. -/
def connections_for (db : ZoneDB) : Option String → List (String × String × Int)
  | none => []
  | some n =>
    (db.conns.filter (fun c => c.fromName == n)).map (fun c => (c.toName, c.dir, c.offset))
      ++ (db.conns.filter (fun c => c.toName == n)).map (fun c => (c.fromName, c.dir, c.offset))

/-- The edge loop of lines 248–275: resolve the connected map's id, skip it
when the id is falsy (`None` *or* `0`) or already processed, flip the
direction only when the connected name equals the current map's name, and
compute the offsets with `calculate_map_offset` against the current state.
Returns the queue entries to append, or `none` when Python would raise. -/
def process_edges (db : ZoneDB) (cur_id : Nat) (cur_name : Option String)
    (processed : List Nat) (ox oy : Int) :
    List (String × String × Int) → Option (List (Nat × Int × Int))
  | [] => some []
  | (cname, d, k) :: rest =>
    match get_map_id_by_name db cname with
    | none => process_edges db cur_id cur_name processed ox oy rest
    | some cid =>
      if cid = 0 ∨ cid ∈ processed then
        process_edges db cur_id cur_name processed ox oy rest
      else
        let d1 := if cur_name = some cname then reverse_direction d else d
        match calculate_map_offset db cur_id cid d1 k with
        | none => none
        | some off =>
          match process_edges db cur_id cur_name processed ox oy rest with
          | none => none
          | some l => some ((cid, ox + off.1, oy + off.2) :: l)

/-- The BFS loop of `process_map_connections` (lines 195–278), with explicit
fuel (the Python loop always terminates; every theorem takes the fuel as a
parameter).  Pops the queue head; a processed map is skipped; otherwise the
map's tiles are reset to minima `(0,0)` and translated by the queued offset,
the map is added to `processed`, and its connection edges enqueue further
maps. -/
def solveLoop (db : ZoneDB) (processed : List Nat) (queue : List (Nat × Int × Int)) :
    Nat → Option (ZoneDB × List Nat)
  | 0 => none
  | fuel + 1 =>
    match queue with
    | [] => some (db, processed)
    | (mid, ox, oy) :: rest =>
      if mid ∈ processed then solveLoop db processed rest fuel
      else
        match min_xy db mid with
        | none => none
        | some mn =>
          let db1 := update_map_coordinates db mid (-mn.1) (-mn.2)
          let db2 := update_map_coordinates db1 mid ox oy
          let nm := get_map_name db2 mid
          let processed1 := mid :: processed
          match process_edges db2 mid nm processed1 ox oy (connections_for db2 nm) with
          | none => none
          | some nq => solveLoop db2 processed1 (rest ++ nq) fuel

/-- `process_map_connections`: BFS from Pallet Town (map id 0) at offset
`(0, 0)`; returns the final state and the processed map ids (most recent
first). -/
def process_map_connections (db : ZoneDB) (fuel : Nat) : Option (ZoneDB × List Nat) :=
  solveLoop db [] [(PALLET_TOWN_MAP_ID, 0, 0)] fuel

/-! ### Per-map translations

`shiftDB` applies a per-map translation to every tile; the solver's updates
are exactly such translations, which drives the idempotence proof. -/

/-- Translate one tile by the offset assigned to its map. -/
def shiftT (c : Nat → Int × Int) (t : Tile) : Tile :=
  { t with x := t.x + (c t.mapId).1, y := t.y + (c t.mapId).2 }

/-- Translate every map's tiles by a per-map offset. -/
def shiftDB (c : Nat → Int × Int) (db : ZoneDB) : ZoneDB :=
  { db with tiles := db.tiles.map (shiftT c) }

/-! ## Concrete inputs for counterexamples and witnesses -/

/-- A `w × h`-tile rectangle of tiles for one map at local coordinates. -/
def rectTiles (mid w h : Nat) : List Tile :=
  (List.range h).flatMap (fun y => (List.range w).map (fun x => ⟨mid, x, y⟩))

/-- The §8 scenario: root "Town" (2×2 blocks = 4×4 tiles, map id 0) connects
`north` to "Route" (2×3 blocks = 4×6 tiles, map id 1) with lateral offset 0. -/
def townRouteDB : ZoneDB :=
  ⟨[(0, "Town"), (1, "Route")],
   [⟨"Town", "Route", "north", 0⟩],
   rectTiles 0 4 4 ++ rectTiles 1 4 6⟩

/-- A database whose connection list references a map name `"Ghost"` absent
from the `maps` table, and carries a direction `"upward"` outside the four
canonical ones. -/
def badConnDB : ZoneDB :=
  ⟨[(0, "Town"), (1, "Route")],
   [⟨"Town", "Ghost", "north", 0⟩, ⟨"Town", "Route", "upward", 3⟩],
   rectTiles 0 4 4 ++ rectTiles 1 4 6⟩

/-- One map, no connections: the smallest database on which the solver
completes. -/
def soloDB : ZoneDB := ⟨[(0, "A")], [], [⟨0, 0, 0⟩]⟩

/-! ## Generic helpers -/

theorem getD_range_map {α : Type} (f : Nat → α) (n i : Nat) (d : α) (h : i < n) :
    ((List.range n).map f).getD i d = f i := by
  rw [List.getD_eq_getElem?_getD, List.getElem?_map, List.getElem?_range h]; rfl

theorem mem_range_map {α : Type} (f : Nat → α) (n : Nat) (v : α)
    (h : v ∈ (List.range n).map f) : ∃ i, i < n ∧ v = f i := by
  obtain ⟨i, hi, rfl⟩ := List.mem_map.mp h
  exact ⟨i, List.mem_range.mp hi, rfl⟩

theorem two_bit_lt (a b : Nat) : ((a &&& 1) <<< 1) ||| (b &&& 1) < 4 := by
  have ha : a &&& 1 ≤ 1 := Nat.and_le_right
  have hb : b &&& 1 ≤ 1 := Nat.and_le_right
  rcases Nat.le_one_iff_eq_zero_or_eq_one.mp ha with h | h <;>
    rcases Nat.le_one_iff_eq_zero_or_eq_one.mp hb with h2 | h2 <;> rw [h, h2] <;> decide

/-! ## C5 — decoder correctness -/

/-- C5: for every 16-byte input buffer `decode_2bpp_tile` returns an 8×8
matrix whose every entry lies in `{0,1,2,3}`, with the entry at row `r`, bit
position `p` (column `7-p`, 7 = MSB … 0 = LSB) equal to
`(bit(b2,p) <<< 1) ||| bit(b1,p)` where `(b1, b2)` is the `r`-th consecutive
byte pair; the decoder is a pure function, so repeated invocation yields an
identical result. -/
theorem C5_decoder_correct (tile_data : List Nat) (h : tile_data.length = 16) :
    ∃ m, decode_2bpp_tile tile_data = some m ∧
      decode_2bpp_tile tile_data = decode_2bpp_tile tile_data ∧
      m.length = 8 ∧ (∀ row ∈ m, row.length = 8) ∧
      (∀ r p, r < 8 → p < 8 →
        (m.getD r []).getD (7 - p) 0 =
          (((tile_data.getD (r * 2 + 1) 0 >>> p) &&& 1) <<< 1) |||
            ((tile_data.getD (r * 2) 0 >>> p) &&& 1)) ∧
      (∀ row ∈ m, ∀ v ∈ row, v < 4) := by
  rw [decode_2bpp_tile, if_pos (by omega)]
  refine ⟨_, rfl, rfl, by simp, ?_, ?_, ?_⟩
  · intro row hrow
    obtain ⟨r, _, rfl⟩ := mem_range_map _ _ _ hrow
    simp
  · intro r p hr hp
    rw [getD_range_map _ _ _ _ hr, getD_range_map _ _ _ _ (by omega)]
    have h7 : 7 - (7 - p) = p := by omega
    simp only [h7]
  · intro row hrow v hv
    obtain ⟨r, hr, rfl⟩ := mem_range_map _ _ _ hrow
    obtain ⟨b, hb, rfl⟩ := mem_range_map _ _ _ hv
    exact two_bit_lt _ _

/-- Witness for C5 at the concrete buffer `[0,…,0,255,240]`. -/
theorem C5_witness :
    (List.replicate 14 0 ++ [255, 240] : List Nat).length = 16 ∧
    (∃ m, decode_2bpp_tile (List.replicate 14 0 ++ [255, 240]) = some m ∧
      decode_2bpp_tile (List.replicate 14 0 ++ [255, 240]) =
        decode_2bpp_tile (List.replicate 14 0 ++ [255, 240]) ∧
      m.length = 8 ∧ (∀ row ∈ m, row.length = 8) ∧
      (∀ r p, r < 8 → p < 8 →
        (m.getD r []).getD (7 - p) 0 =
          ((((List.replicate 14 0 ++ [255, 240] : List Nat).getD (r * 2 + 1) 0 >>> p) &&& 1) <<< 1) |||
            (((List.replicate 14 0 ++ [255, 240] : List Nat).getD (r * 2) 0 >>> p) &&& 1)) ∧
      (∀ row ∈ m, ∀ v ∈ row, v < 4)) :=
  ⟨by decide, C5_decoder_correct (List.replicate 14 0 ++ [255, 240]) (by decide)⟩

/-! ## C1 — north placement -/

/-- C1 counterexample: in the §8 scenario (root "Town", 2×2 blocks, connected
`north` to "Route", 2×3 blocks, lateral offset 0) the solver places Route's
tiles at global `y ∈ [-6, -1]`, not at the claimed `y ∈ [4, 9]` (Town keeps
`y ∈ [0, 3]`). -/
theorem C1_counterexample :
    (process_map_connections townRouteDB 10).map (fun r =>
      (listMin ((tilesOf r.1 1).map (·.y)), listMax ((tilesOf r.1 1).map (·.y)),
       listMin ((tilesOf r.1 0).map (·.y)), listMax ((tilesOf r.1 0).map (·.y))))
      = some (some (-6), some (-1), some 0, some 3) := by
  set_option maxRecDepth 10000 in decide

/-- C1 as amended: processing a `north` connection with lateral offset `k`
from a placed map at `(ox, oy)` to an unvisited map `N` enqueues `N` at
`x = ox + k*BLOCK_SIZE` and `y = oy - H_N` where `H_N` is `N`'s own
tile-space height (not `oy + H` of the current map); in the §8 scenario
Route receives tile offset `(0, -6)` and its tiles occupy global
`y ∈ [-6, -1]` while Town's occupy `y ∈ [0, 3]`, still without overlap. -/
theorem C1_amended :
    (∀ (db : ZoneDB) (cur_id : Nat) (cur_name : Option String) (processed : List Nat)
       (ox oy : Int) (cname : String) (k : Int) (cid : Nat) (tw th : Int),
       get_map_id_by_name db cname = some cid → ¬(cid = 0 ∨ cid ∈ processed) →
       cur_name ≠ some cname → get_map_dimensions db cid = some (tw, th) →
       process_edges db cur_id cur_name processed ox oy [(cname, "north", k)]
         = some [(cid, ox + k * BLOCK_SIZE, oy - th)]) ∧
    ((process_map_connections townRouteDB 10).map (fun r =>
      (listMin ((tilesOf r.1 1).map (·.y)), listMax ((tilesOf r.1 1).map (·.y)),
       listMin ((tilesOf r.1 1).map (·.x)), listMax ((tilesOf r.1 1).map (·.x))))
      = some (some (-6), some (-1), some 0, some 3)) ∧
    ((process_map_connections townRouteDB 10).map (fun r =>
      (listMin ((tilesOf r.1 0).map (·.y)), listMax ((tilesOf r.1 0).map (·.y))))
      = some (some 0, some 3)) := by
  refine ⟨?_, ?_, ?_⟩
  · intro db cur_id cur_name processed ox oy cname k cid tw th h1 h2 h3 h4
    simp only [process_edges, h1, if_neg h2, if_neg h3, calculate_map_offset, h4]
    simp
    rw [Int.sub_eq_add_neg]
  · set_option maxRecDepth 10000 in decide
  · set_option maxRecDepth 10000 in decide

/-- Witness for C1's amended theorem: the north step of the §8 scenario. -/
theorem C1_witness :
    process_edges townRouteDB 0 (some "Town") [0] 0 0 [("Route", "north", 0)]
      = some [(1, 0, -6)] := by
  have h := C1_amended.1 townRouteDB 0 (some "Town") [0] 0 0 "Route" 0 1 4 6
    (by decide) (by decide) (by decide) (by decide)
  exact h.trans (by decide)

/-! ## C6 — unresolvable connections -/

/-- C6 counterexample: on `badConnDB` — whose connection list references the
unknown map name "Ghost" and carries the direction "upward" outside the four
canonical ones — the solver does *not* abort: it completes, processes both
maps, and produces placements (Route is even placed through the
invalid-direction edge). -/
theorem C6_counterexample :
    (process_map_connections badConnDB 10).map (fun r =>
      (r.2, (tilesOf r.1 1).length,
       listMin ((tilesOf r.1 1).map (·.y)), listMax ((tilesOf r.1 1).map (·.y))))
      = some ([1, 0], 24, some 0, some 5) := by
  set_option maxRecDepth 10000 in decide

/-- C6 as amended: an edge whose connected map name is not in the `maps`
table is silently skipped (the remaining edges are still processed and the
run continues), and an edge whose direction lies outside
`{north, south, east, west}` does not abort either — `calculate_map_offset`
yields the relative offset `(0, 0)`, so the connected map is enqueued at the
current map's own offset. -/
theorem C6_amended :
    (∀ (db : ZoneDB) (cur_id : Nat) (cur_name : Option String) (processed : List Nat)
       (ox oy : Int) (cname d : String) (k : Int) (rest : List (String × String × Int)),
       get_map_id_by_name db cname = none →
       process_edges db cur_id cur_name processed ox oy ((cname, d, k) :: rest)
         = process_edges db cur_id cur_name processed ox oy rest) ∧
    (∀ (db : ZoneDB) (from_id to_id : Nat) (d : String) (k : Int),
       d ≠ "north" → d ≠ "south" → d ≠ "east" → d ≠ "west" →
       calculate_map_offset db from_id to_id d k = some (0, 0)) := by
  constructor
  · intro db cur_id cur_name processed ox oy cname d k rest h
    simp only [process_edges, h]
  · intro db from_id to_id d k h1 h2 h3 h4
    simp only [calculate_map_offset, if_neg h1, if_neg h2, if_neg h3, if_neg h4]

/-- Witness for C6's amended theorem: the "Ghost" edge of `badConnDB` is
skipped and the "upward" direction yields offset `(0, 0)`. -/
theorem C6_witness :
    (process_edges badConnDB 0 (some "Town") [0] 0 0 [("Ghost", "north", 0)]
       = process_edges badConnDB 0 (some "Town") [0] 0 0 []) ∧
    calculate_map_offset badConnDB 0 1 "upward" 3 = some (0, 0) :=
  ⟨C6_amended.1 badConnDB 0 (some "Town") [0] 0 0 "Ghost" "north" 0 [] (by decide),
   C6_amended.2 badConnDB 0 1 "upward" 3 (by decide) (by decide) (by decide) (by decide)⟩

/-! ## C10 — the falsy map-id check -/

theorem process_edges_ids (db : ZoneDB) (cur_id : Nat) (cur_name : Option String)
    (processed : List Nat) (ox oy : Int) :
    ∀ (es : List (String × String × Int)) (l : List (Nat × Int × Int)),
      process_edges db cur_id cur_name processed ox oy es = some l →
      ∀ e ∈ l, e.1 ≠ 0 ∧ e.1 ∉ processed := by
  intro es
  induction es with
  | nil =>
    intro l h e he
    simp only [process_edges, Option.some_inj] at h
    subst h
    simp at he
  | cons hd tl ih =>
    intro l h e he
    obtain ⟨cname, d, k⟩ := hd
    cases hid : get_map_id_by_name db cname with
    | none =>
      simp only [process_edges, hid] at h
      exact ih l h e he
    | some cid =>
      simp only [process_edges, hid] at h
      by_cases hc : cid = 0 ∨ cid ∈ processed
      · rw [if_pos hc] at h
        exact ih l h e he
      · rw [if_neg hc] at h
        push_neg at hc
        cases hoff : calculate_map_offset db cur_id cid
            (if cur_name = some cname then reverse_direction d else d) k with
        | none => rw [hoff] at h; exact absurd h (by simp)
        | some off =>
          rw [hoff] at h
          cases hrest : process_edges db cur_id cur_name processed ox oy tl with
          | none => rw [hrest] at h; exact absurd h (by simp)
          | some l2 =>
            rw [hrest] at h
            simp only [Option.some_inj] at h
            subst h
            rcases List.mem_cons.mp he with rfl | hm
            · exact ⟨hc.1, hc.2⟩
            · exact ih l2 hrest e hm

theorem solveLoop_zero_origin :
    ∀ (fuel : Nat) (db : ZoneDB) (p : List Nat) (q : List (Nat × Int × Int))
      (e : ZoneDB) (pf : List Nat),
      solveLoop db p q fuel = some (e, pf) → 0 ∈ pf → 0 ∈ p ∨ 0 ∈ q.map (·.1) := by
  intro fuel
  induction fuel with
  | zero => intro db p q e pf h; simp [solveLoop] at h
  | succ f ih =>
    intro db p q e pf h h0
    match q with
    | [] =>
      simp only [solveLoop, Option.some_inj, Prod.mk.injEq] at h
      exact Or.inl (h.2 ▸ h0)
    | (mid, ox, oy) :: rest =>
      simp only [solveLoop] at h
      by_cases hm : mid ∈ p
      · rw [if_pos hm] at h
        rcases ih db p rest e pf h h0 with hp | hq
        · exact Or.inl hp
        · exact Or.inr (by simp only [List.map_cons]; exact List.mem_cons_of_mem _ hq)
      · rw [if_neg hm] at h
        cases hmn : min_xy db mid with
        | none => rw [hmn] at h; exact absurd h (by simp)
        | some mn =>
          simp only [hmn] at h
          set db2 := update_map_coordinates (update_map_coordinates db mid (-mn.1) (-mn.2)) mid ox oy with hdb2
          cases hpe : process_edges db2 mid (get_map_name db2 mid) (mid :: p) ox oy
              (connections_for db2 (get_map_name db2 mid)) with
          | none => rw [hpe] at h; exact absurd h (by simp)
          | some nq =>
            rw [hpe] at h
            rcases ih db2 (mid :: p) (rest ++ nq) e pf h h0 with hp | hq
            · rcases List.mem_cons.mp hp with rfl | hp2
              · exact Or.inr (by simp)
              · exact Or.inl hp2
            · rw [List.map_append] at hq
              rcases List.mem_append.mp hq with h1 | h2
              · exact Or.inr (by simp only [List.map_cons]; exact List.mem_cons_of_mem _ h1)
              · obtain ⟨en, hen, he0⟩ := List.mem_map.mp h2
                have := (process_edges_ids db2 mid (get_map_name db2 mid) (mid :: p) ox oy _ nq hpe en hen).1
                exact absurd he0 this

/-- C10: a connection edge whose connected map resolves to database id 0 is
skipped exactly like an unknown map (Python's `if not connected_map_id`
treats id 0 as falsy); `process_edges` never enqueues an entry with id 0, so
a map with id 0 can only ever be processed by starting in the BFS queue —
i.e. by being the designated root. -/
theorem C10_zero_id_conflated :
    (∀ (db : ZoneDB) (cur_id : Nat) (cur_name : Option String) (processed : List Nat)
       (ox oy : Int) (cname d : String) (k : Int) (rest : List (String × String × Int)),
       get_map_id_by_name db cname = some 0 →
       process_edges db cur_id cur_name processed ox oy ((cname, d, k) :: rest)
         = process_edges db cur_id cur_name processed ox oy rest) ∧
    (∀ (db : ZoneDB) (cur_id : Nat) (cur_name : Option String) (processed : List Nat)
       (ox oy : Int) (es : List (String × String × Int)) (l : List (Nat × Int × Int)),
       process_edges db cur_id cur_name processed ox oy es = some l →
       ∀ e ∈ l, e.1 ≠ 0) ∧
    (∀ (fuel : Nat) (db : ZoneDB) (p : List Nat) (q : List (Nat × Int × Int))
       (e : ZoneDB) (pf : List Nat),
       solveLoop db p q fuel = some (e, pf) → 0 ∈ pf → 0 ∈ p ∨ 0 ∈ q.map (·.1)) := by
  refine ⟨?_, ?_, ?_⟩
  · intro db cur_id cur_name processed ox oy cname d k rest h
    simp only [process_edges, h]
    simp
  · intro db cur_id cur_name processed ox oy es l h e he
    exact (process_edges_ids db cur_id cur_name processed ox oy es l h e he).1
  · exact solveLoop_zero_origin

set_option maxRecDepth 10000 in
/-- Witness for C10 at concrete inputs: the back-edge of the §8 scenario
resolves to Town's id 0 and is skipped; the forward step enqueues only
nonzero ids; in the one-map database the only processed map was the root. -/
theorem C10_witness :
    (process_edges townRouteDB 1 (some "Route") [1] 0 (-6) [("Town", "north", 0)]
       = process_edges townRouteDB 1 (some "Route") [1] 0 (-6) []) ∧
    (∀ e ∈ [((1 : Nat), (0 : Int), (-6 : Int))], e.1 ≠ 0) ∧
    (0 ∈ ([] : List Nat) ∨ 0 ∈ ([((0 : Nat), (0 : Int), (0 : Int))].map (·.1))) :=
  ⟨C10_zero_id_conflated.1 townRouteDB 1 (some "Route") [1] 0 (-6) "Town" "north" 0 [] (by decide),
   C10_zero_id_conflated.2.1 townRouteDB 0 (some "Town") [0] 0 0 [("Route", "north", 0)]
     [(1, 0, -6)] (by decide),
   C10_zero_id_conflated.2.2 3 soloDB [] [(0, 0, 0)] soloDB [0] (by decide) (by decide)⟩

/-! ## C4 — alias propagation in the quadrant index -/

theorem intern_mappings (st : Store) (ts bi pos : Nat) (img : Image) :
    (intern st ts bi pos img).1.block_pos_to_image_id
      = addMappings st.block_pos_to_image_id ts bi pos (intern st ts bi pos img).2 := by
  unfold intern
  rcases hh : dictGet st.image_hash_to_id (get_image_hash img) with _ | id <;> simp [hh]

theorem dictGet_addMappings_self (m : List ((Nat × Nat × Nat) × Nat)) (ts bi pos id : Nat) :
    dictGet (addMappings m ts bi pos id) (ts, bi, pos) = some id := by
  by_cases h7 : ts = 7 <;> by_cases h6 : ts = 6 <;>
    simp [addMappings, dictGet, h7, h6, List.find?]

theorem dictGet_addMappings_alias (m : List ((Nat × Nat × Nat) × Nat)) (a c bi pos id : Nat)
    (h : (a, c) ∈ TILESET_ALIASES) :
    dictGet (addMappings m c bi pos id) (a, bi, pos) = some id := by
  have h2 : (a = 5 ∧ c = 7) ∨ (a = 2 ∧ c = 6) := by
    simpa [TILESET_ALIASES, Prod.ext_iff] using h
  rcases h2 with ⟨rfl, rfl⟩ | ⟨rfl, rfl⟩ <;> simp [addMappings, dictGet, List.find?]

/-- C4: after interning a quadrant image under a canonical tile set id, the
quadrant index additionally contains an identical mapping for every tile set
id that aliases to that canonical id (`TILESET_ALIASES`: 5 → 7, 2 → 6); in
particular, interning for tile set 6 at `(blockIndex = 3, quadrant = 1)`
makes the lookup under key `(2, 3, 1)` resolve to the same image id, without
any render pass for tile set 2 (both entries are written by the very same
`intern` call). -/
theorem C4_alias_propagation :
    (∀ (a c : Nat), (a, c) ∈ TILESET_ALIASES →
      ∀ (st : Store) (bi pos : Nat) (img : Image),
        dictGet (intern st c bi pos img).1.block_pos_to_image_id (a, bi, pos)
          = some (intern st c bi pos img).2 ∧
        dictGet (intern st c bi pos img).1.block_pos_to_image_id (c, bi, pos)
          = some (intern st c bi pos img).2) ∧
    (dictGet (intern emptyStore 6 3 1 whiteImage).1.block_pos_to_image_id (2, 3, 1)
       = some (intern emptyStore 6 3 1 whiteImage).2 ∧
     dictGet (intern emptyStore 6 3 1 whiteImage).1.block_pos_to_image_id (6, 3, 1)
       = some (intern emptyStore 6 3 1 whiteImage).2) := by
  constructor
  · intro a c hac st bi pos img
    rw [intern_mappings]
    exact ⟨dictGet_addMappings_alias _ a c bi pos _ hac, dictGet_addMappings_self _ c bi pos _⟩
  · constructor <;> decide

/-- Witness for C4 at the §8 scenario input: alias pair `(2, 6)`, block 3,
quadrant 1. -/
theorem C4_witness :
    dictGet (intern emptyStore 6 3 1 whiteImage).1.block_pos_to_image_id (2, 3, 1)
      = some (intern emptyStore 6 3 1 whiteImage).2 ∧
    dictGet (intern emptyStore 6 3 1 whiteImage).1.block_pos_to_image_id (6, 3, 1)
      = some (intern emptyStore 6 3 1 whiteImage).2 :=
  C4_alias_propagation.1 2 6 (by decide) emptyStore 3 1 whiteImage

/-! ## C7 — short tile buffers -/

theorem dictGet_mem {κ α : Type} [BEq κ] (l : List (κ × α)) (k : κ) (v : α)
    (h : dictGet l k = some v) : ∃ p ∈ l, p.2 = v := by
  unfold dictGet at h
  cases hf : l.find? (fun p => p.1 == k) with
  | none => rw [hf] at h; exact absurd h (by simp)
  | some p =>
    rw [hf] at h
    simp at h
    exact ⟨p, List.mem_of_find?_eq_some hf, h⟩

theorem renderTiles_isSome (tiles : List (Nat × List Nat)) (bd : List Nat)
    (h : ∀ p ∈ tiles, p.2 = [] ∨ 16 ≤ p.2.length) :
    ∀ (layout : List (Nat × Nat)) (i : Nat) (img : Image),
      (renderTiles tiles bd layout i img).isSome := by
  intro layout
  induction layout with
  | nil => intro i img; rfl
  | cons hd tl ih =>
    intro i img
    obtain ⟨y, x⟩ := hd
    simp only [renderTiles]
    by_cases hlt : y * 4 + x < bd.length
    · rw [if_pos hlt]
      cases hdg : dictGet tiles (blkAt bd (y * 4 + x)) with
      | none => exact ih (i + 1) img
      | some td =>
        dsimp only
        by_cases he : td.isEmpty
        · rw [if_pos he]; exact ih (i + 1) img
        · rw [if_neg he]
          obtain ⟨p, hp, hp2⟩ := dictGet_mem tiles _ td hdg
          rcases h p hp with h0 | h16
          · exact absurd (by simp [hp2 ▸ h0] : td.isEmpty = true) he
          · rw [decode_2bpp_tile, if_pos (hp2 ▸ h16)]
            exact ih (i + 1) _
    · rw [if_neg hlt]; exact ih (i + 1) img

theorem processBlock_isSome (tiles : List (Nat × List Nat)) (ts bi : Nat) (bd : List Nat)
    (h : ∀ p ∈ tiles, p.2 = [] ∨ 16 ≤ p.2.length) :
    ∀ (layouts : List (List (Nat × Nat))) (st : Store) (pi : Nat),
      (processBlock tiles ts bi bd st layouts pi).isSome := by
  intro layouts
  induction layouts with
  | nil => intro st pi; rfl
  | cons hd tl ih =>
    intro st pi
    simp only [processBlock]
    have hr := renderTiles_isSome tiles bd h hd 0 whiteImage
    cases hq : renderQuadrant tiles bd hd with
    | none => rw [renderQuadrant] at hq; rw [hq] at hr; simp at hr
    | some img => exact ih _ _

theorem processBlocks_isSome (tiles : List (Nat × List Nat)) (ts : Nat)
    (h : ∀ p ∈ tiles, p.2 = [] ∨ 16 ≤ p.2.length) :
    ∀ (blocks : List (Nat × List Nat)) (st : Store),
      (processBlocks tiles ts st blocks).isSome := by
  intro blocks
  induction blocks with
  | nil => intro st; rfl
  | cons hd tl ih =>
    intro st
    obtain ⟨bi, bd⟩ := hd
    simp only [processBlocks]
    have hb := processBlock_isSome tiles ts bi bd h quadrantLayouts st 0
    cases hq : processBlock tiles ts bi bd st quadrantLayouts 0 with
    | none => rw [hq] at hb; simp at hb
    | some st1 => exact ih st1

theorem extractLoop_isSome (blocksets tileset_tiles : List (Nat × Nat × List Nat))
    (h : ∀ r ∈ tileset_tiles, r.2.2 = [] ∨ 16 ≤ r.2.2.length) :
    ∀ (tilesets : List (Nat × String)) (st : Store),
      (extractLoop blocksets tileset_tiles st tilesets).isSome := by
  intro tilesets
  induction tilesets with
  | nil => intro st; rfl
  | cons hd tl ih =>
    intro st
    obtain ⟨tileset_id, nm⟩ := hd
    simp only [extractLoop]
    by_cases hb : ((blocksets.filter (fun b => b.1 == query_tileset_id tileset_id)).map
        (fun b => (b.2.1, b.2.2))).isEmpty
    · rw [if_pos hb]; exact ih st
    · rw [if_neg hb]
      by_cases ht : ((tileset_tiles.filter (fun t => t.1 == query_tileset_id tileset_id)).map
          (fun t => (t.2.1, t.2.2))).isEmpty
      · rw [if_pos ht]; exact ih st
      · rw [if_neg ht]
        have hsafe : ∀ p ∈ (tileset_tiles.filter
            (fun t => t.1 == query_tileset_id tileset_id)).map (fun t => (t.2.1, t.2.2)),
            p.2 = [] ∨ 16 ≤ p.2.length := by
          intro p hp
          obtain ⟨r, hr, rfl⟩ := List.mem_map.mp hp
          exact h r (List.mem_of_mem_filter hr)
        have hps := processBlocks_isSome _ tileset_id hsafe
          ((blocksets.filter (fun b => b.1 == query_tileset_id tileset_id)).map
            (fun b => (b.2.1, b.2.2))) st
        cases hq : processBlocks ((tileset_tiles.filter
            (fun t => t.1 == query_tileset_id tileset_id)).map (fun t => (t.2.1, t.2.2)))
            tileset_id st ((blocksets.filter (fun b => b.1 == query_tileset_id tileset_id)).map
            (fun b => (b.2.1, b.2.2))) with
        | none => rw [hq] at hps; simp at hps
        | some st1 => exact ih st1

/-- C7 counterexample: an input whose only tile buffer is the 1-byte `[7]`
(nonempty but shorter than 16 bytes) makes the whole extraction run abort
(`none` models the uncaught `IndexError`); the error is *not* confined to
that tile. -/
theorem C7_counterexample :
    extract_tile_images [(1, "OVERWORLD")] [(1, 0, List.replicate 16 0)] [(1, 0, [7])] = none := by
  decide

/-- C7 as amended: only a *missing* or *empty* tile buffer is confined to
its tile — that tile contributes nothing and rendering continues with the
rest; a nonempty buffer shorter than 16 bytes instead aborts the whole
quadrant render, and a run in which every tile buffer is either empty or at
least 16 bytes long never aborts. -/
theorem C7_short_tile_aborts :
    (∀ (tiles : List (Nat × List Nat)) (bd : List Nat) (y x : Nat)
       (rest : List (Nat × Nat)) (i : Nat) (img : Image),
       y * 4 + x < bd.length → dictGet tiles (blkAt bd (y * 4 + x)) = none →
       renderTiles tiles bd ((y, x) :: rest) i img = renderTiles tiles bd rest (i + 1) img) ∧
    (∀ (tiles : List (Nat × List Nat)) (bd : List Nat) (y x : Nat)
       (rest : List (Nat × Nat)) (i : Nat) (img : Image),
       y * 4 + x < bd.length → dictGet tiles (blkAt bd (y * 4 + x)) = some [] →
       renderTiles tiles bd ((y, x) :: rest) i img = renderTiles tiles bd rest (i + 1) img) ∧
    (∀ (tiles : List (Nat × List Nat)) (bd : List Nat) (y x : Nat)
       (rest : List (Nat × Nat)) (i : Nat) (img : Image) (td : List Nat),
       y * 4 + x < bd.length → dictGet tiles (blkAt bd (y * 4 + x)) = some td →
       td ≠ [] → td.length < 16 →
       renderTiles tiles bd ((y, x) :: rest) i img = none) ∧
    (∀ (tilesets : List (Nat × String)) (blocksets tileset_tiles : List (Nat × Nat × List Nat)),
       (∀ r ∈ tileset_tiles, r.2.2 = [] ∨ 16 ≤ r.2.2.length) →
       (extract_tile_images tilesets blocksets tileset_tiles).isSome) := by
  refine ⟨?_, ?_, ?_, ?_⟩
  · intro tiles bd y x rest i img hlt hdg
    simp only [renderTiles, if_pos hlt, hdg]
  · intro tiles bd y x rest i img hlt hdg
    simp only [renderTiles, if_pos hlt, hdg]
    rfl
  · intro tiles bd y x rest i img td hlt hdg hne hlen
    simp only [renderTiles, if_pos hlt, hdg]
    rw [if_neg (by simpa using hne)]
    rw [decode_2bpp_tile, if_neg (by omega)]
  · intro tilesets blocksets tileset_tiles h
    exact extractLoop_isSome blocksets tileset_tiles h tilesets emptyStore

/-- Witness for C7's amended theorem at concrete inputs. -/
theorem C7_witness :
    (renderTiles [(3, [7])] (List.replicate 16 0) [(0, 0)] 0 whiteImage
       = renderTiles [(3, [7])] (List.replicate 16 0) [] 1 whiteImage) ∧
    (renderTiles [(0, [])] (List.replicate 16 0) [(0, 0)] 0 whiteImage
       = renderTiles [(0, [])] (List.replicate 16 0) [] 1 whiteImage) ∧
    (renderTiles [(0, [7])] (List.replicate 16 0) [(0, 0)] 0 whiteImage = none) ∧
    (extract_tile_images [(1, "OVERWORLD")] [(1, 0, List.replicate 16 0)]
       [(1, 0, List.replicate 16 0)]).isSome :=
  ⟨C7_short_tile_aborts.1 [(3, [7])] (List.replicate 16 0) 0 0 [] 0 whiteImage
     (by decide) (by decide),
   C7_short_tile_aborts.2.1 [(0, [])] (List.replicate 16 0) 0 0 [] 0 whiteImage
     (by decide) (by decide),
   C7_short_tile_aborts.2.2.1 [(0, [7])] (List.replicate 16 0) 0 0 [] 0 whiteImage [7]
     (by decide) (by decide) (by decide) (by decide),
   C7_short_tile_aborts.2.2.2 [(1, "OVERWORLD")] [(1, 0, List.replicate 16 0)]
     [(1, 0, List.replicate 16 0)] (by decide)⟩

/-! ## C8 — quadrant-0 fallback and dropped tiles -/

theorem length_flatMap_sum {α β : Type} (l : List α) (f : α → List β) :
    (l.flatMap f).length = (l.map (fun a => (f a).length)).sum := by
  induction l with
  | nil => rfl
  | cons hd tl ih => simp [List.flatMap_cons, ih]

theorem length_filterMap_count {α β : Type} (f : α → Option β) (l : List α) :
    (l.filterMap f).length = (l.filter (fun a => (f a).isSome)).length := by
  induction l with
  | nil => rfl
  | cons hd tl ih =>
    cases h : f hd with
    | none => simp [List.filterMap_cons, List.filter_cons, h, ih]
    | some b => simp [List.filterMap_cons, List.filter_cons, h, ih]

theorem tile_image_for_fallback (bp : List ((Nat × Nat × Nat) × Nat))
    (hz : ∀ kv ∈ bp, kv.2 ≠ 0) (lts bi pos : Nat)
    (h : dictGet bp (lts, bi, pos) = none) :
    tile_image_for bp lts bi pos = dictGet bp (lts, bi, 0) := by
  unfold tile_image_for
  rw [h]
  dsimp only
  rw [if_pos (Or.inl rfl)]
  cases h0 : dictGet bp (lts, bi, 0) with
  | none => simp
  | some id =>
    rw [if_neg]
    rintro (hc | hc)
    · exact absurd hc (by simp)
    · have hid : id ≠ 0 := by
        obtain ⟨p, hp, hp2⟩ := dictGet_mem bp _ id h0
        exact hp2 ▸ hz p hp
      exact hid (by simpa using hc)

theorem populate_emits (bp : List ((Nat × Nat × Nat) × Nat)) (map_id : Nat)
    (map_name : String) (is_ow : Bool) (raw : List (Nat × Nat × Nat × Nat))
    (r : Nat × Nat × Nat × Nat) (pos id : Nat)
    (hr : r ∈ raw) (hpos : pos < 4)
    (hid : tile_image_for bp (lookup_tileset_id r.2.2.2) r.2.2.1 pos = some id) :
    (⟨(r.1 : Int) * 2 + (pos % 2 : Nat), (r.2.1 : Int) * 2 + (pos / 2 : Nat),
      (r.1 : Int) * 2 + (pos % 2 : Nat), (r.2.1 : Int) * 2 + (pos / 2 : Nat),
      map_id, id, is_ow⟩ : TileRec)
      ∈ populate_map_tiles bp map_id map_name [] is_ow raw := by
  unfold populate_map_tiles
  rw [(List.perm_insertionSort tileLe _).mem_iff]
  simp only [List.find?_nil, Option.isSome_none, List.mem_flatMap]
  refine ⟨r, hr, ?_⟩
  rw [List.mem_filterMap]
  refine ⟨pos, List.mem_range.mpr hpos, ?_⟩
  rw [hid]
  simp

theorem populate_length (bp : List ((Nat × Nat × Nat) × Nat)) (map_id : Nat)
    (map_name : String) (positions : List (String × Int × Int)) (is_ow : Bool)
    (raw : List (Nat × Nat × Nat × Nat)) :
    (populate_map_tiles bp map_id map_name positions is_ow raw).length =
      (raw.map (fun r => ((List.range 4).filter
        (fun pos => (tile_image_for bp (lookup_tileset_id r.2.2.2) r.2.2.1 pos).isSome)).length)).sum := by
  unfold populate_map_tiles
  rw [(List.perm_insertionSort tileLe _).length_eq]
  rw [length_flatMap_sum]
  have hmap : ∀ r ∈ raw,
      ((List.range 4).filterMap (fun pos =>
        (tile_image_for bp (lookup_tileset_id r.2.2.2) r.2.2.1 pos).map (fun id =>
          let tile_x : Int := (r.1 : Int) * 2 + (pos % 2 : Nat) +
            (if is_ow ∧ ((positions.find? (fun p => p.1 == map_name))).isSome then
              (((positions.find? (fun p => p.1 == map_name))).map (·.2)).getD (0, 0)
            else ((0 : Int), (0 : Int))).1
          let tile_y : Int := (r.2.1 : Int) * 2 + (pos / 2 : Nat) +
            (if ((positions.find? (fun p => p.1 == map_name))).isSome then
              (if is_ow ∧ ((positions.find? (fun p => p.1 == map_name))).isSome then
                (((positions.find? (fun p => p.1 == map_name))).map (·.2)).getD (0, 0)
              else ((0 : Int), (0 : Int))).2
            else 0)
          (⟨tile_x, tile_y, tile_x, tile_y, map_id, id, is_ow⟩ : TileRec)))).length
        = ((List.range 4).filter
            (fun pos => (tile_image_for bp (lookup_tileset_id r.2.2.2) r.2.2.1 pos).isSome)).length := by
    intro r _
    rw [length_filterMap_count]
    congr 1
    apply List.filter_congr
    intro pos _
    cases tile_image_for bp (lookup_tileset_id r.2.2.2) r.2.2.1 pos <;> rfl
  rw [List.map_congr_left hmap]

/-- C8: during tile instantiation, a tile whose quadrant-index lookup
`(lookupTileSetId, blockIndex, q)` is absent falls back to the image id of
quadrant 0 of the same block; when that is also absent the tile instance is
dropped while every other instance is still emitted — the number of emitted
instances is exactly the sum, over the raw tiles, of the number of quadrants
whose (fallback-resolved) lookup succeeds.  (`bp` values are the store's
ids, which are always positive, so "absent" and Python's falsy test agree.) -/
theorem C8_fallback_and_drop :
    (∀ (bp : List ((Nat × Nat × Nat) × Nat)), (∀ kv ∈ bp, kv.2 ≠ 0) →
      ∀ (lts bi pos : Nat), dictGet bp (lts, bi, pos) = none →
        tile_image_for bp lts bi pos = dictGet bp (lts, bi, 0)) ∧
    (∀ (bp : List ((Nat × Nat × Nat) × Nat)) (map_id : Nat) (map_name : String)
       (is_ow : Bool) (raw : List (Nat × Nat × Nat × Nat))
       (r : Nat × Nat × Nat × Nat) (pos id : Nat),
       r ∈ raw → pos < 4 →
       tile_image_for bp (lookup_tileset_id r.2.2.2) r.2.2.1 pos = some id →
       (⟨(r.1 : Int) * 2 + (pos % 2 : Nat), (r.2.1 : Int) * 2 + (pos / 2 : Nat),
         (r.1 : Int) * 2 + (pos % 2 : Nat), (r.2.1 : Int) * 2 + (pos / 2 : Nat),
         map_id, id, is_ow⟩ : TileRec)
         ∈ populate_map_tiles bp map_id map_name [] is_ow raw) ∧
    (∀ (bp : List ((Nat × Nat × Nat) × Nat)) (map_id : Nat) (map_name : String)
       (positions : List (String × Int × Int)) (is_ow : Bool)
       (raw : List (Nat × Nat × Nat × Nat)),
       (populate_map_tiles bp map_id map_name positions is_ow raw).length =
         (raw.map (fun r => ((List.range 4).filter
           (fun pos => (tile_image_for bp (lookup_tileset_id r.2.2.2) r.2.2.1 pos).isSome)).length)).sum) :=
  ⟨tile_image_for_fallback, populate_emits, populate_length⟩

/-- Witness for C8 with the index `{(6,3,1) ↦ 5, (6,3,0) ↦ 9}`: quadrant 2 of
block 3 falls back to quadrant 0's id 9; the raw tile for block 3 emits its
instances while the raw tile for the unindexed block 4 is dropped, giving
4 instances in total. -/
theorem C8_witness :
    (tile_image_for [((6, 3, 1), 5), ((6, 3, 0), 9)] 6 3 2
       = dictGet [((6, 3, 1), 5), ((6, 3, 0), 9)] (6, 3, 0)) ∧
    ((⟨1, 0, 1, 0, 42, 5, false⟩ : TileRec)
       ∈ populate_map_tiles [((6, 3, 1), 5), ((6, 3, 0), 9)] 42 "M" [] false
           [(0, 0, 3, 2), (1, 0, 4, 2)]) ∧
    (populate_map_tiles [((6, 3, 1), 5), ((6, 3, 0), 9)] 42 "M" [] false
       [(0, 0, 3, 2), (1, 0, 4, 2)]).length = 4 := by
  refine ⟨C8_fallback_and_drop.1 [((6, 3, 1), 5), ((6, 3, 0), 9)] (by decide) 6 3 2 (by decide),
    ?_, (C8_fallback_and_drop.2.2 [((6, 3, 1), 5), ((6, 3, 0), 9)] 42 "M" [] false
      [(0, 0, 3, 2), (1, 0, 4, 2)]).trans (by decide)⟩
  have h := C8_fallback_and_drop.2.1 [((6, 3, 1), 5), ((6, 3, 0), 9)] 42 "M" false
    [(0, 0, 3, 2), (1, 0, 4, 2)] (0, 0, 3, 2) 1 5 (by decide) (by decide) (by decide)
  simpa using h

/-! ## C2 — overworld row inversion -/

theorem rangeMap_getD {α : Type} (l : List α) (d : α) :
    (List.range l.length).map (fun i => l.getD i d) = l := by
  induction l with
  | nil => rfl
  | cons a tl ih =>
    rw [List.length_cons, List.range_succ_eq_map, List.map_cons, List.map_map]
    simp only [List.getD_cons_zero, Function.comp_def, List.getD_cons_succ]
    rw [ih]

theorem flatten_getD_uniform {α : Type} (w : Nat) (d : α) :
    ∀ (rows : List (List α)) (y x : Nat), (∀ r ∈ rows, r.length = w) →
      y < rows.length → x < w →
      rows.flatten.getD (y * w + x) d = (rows.getD y []).getD x d := by
  intro rows
  induction rows with
  | nil => intro y x _ hy _; exact absurd hy (by simp)
  | cons r rest ih =>
    intro y x hu hy hx
    cases y with
    | zero =>
      simp only [List.flatten_cons, List.getD_cons_zero, Nat.zero_mul, Nat.zero_add]
      have hr : r.length = w := hu r (by simp)
      rw [List.getD_append _ _ _ _ (by omega)]
    | succ y' =>
      simp only [List.flatten_cons, List.getD_cons_succ]
      have hr : r.length = w := hu r (by simp)
      have harith : (y' + 1) * w + x = r.length + (y' * w + x) := by
        rw [hr]; ring
      rw [harith, List.getD_append_right _ _ _ _ (by omega)]
      have h2 : r.length + (y' * w + x) - r.length = y' * w + x := by omega
      rw [h2]
      exact ih y' x (fun q hq => hu q (by simp [hq])) (by simpa using hy) hx

theorem blkNorm_getD (blk : List Nat) (w h i : Nat) (hi : i < w * h) :
    (blkNorm blk w h).getD i 0 = blk.getD i 0 := by
  unfold blkNorm
  by_cases hlen : blk.length < w * h
  · rw [if_pos hlen]
    by_cases hib : i < blk.length
    · rw [List.getD_append _ _ _ _ hib]
    · rw [List.getD_append_right _ _ _ _ (by omega)]
      rw [List.getD_eq_getElem?_getD, List.getD_eq_getElem?_getD]
      rw [List.getElem?_replicate]
      rw [List.getElem?_eq_none (by omega)]
      simp [if_pos (by omega : i - blk.length < w * h - blk.length)]
  · rw [if_neg hlen]
    rw [List.getD_eq_getElem?_getD, List.getD_eq_getElem?_getD]
    rw [List.getElem?_take_of_lt hi]

theorem gridOf_flatten (w : Nat) :
    ∀ (rows : List (List Nat)), (∀ r ∈ rows, r.length = w) →
      gridOf rows.flatten w rows.length = rows := by
  intro rows hu
  unfold gridOf blkAt
  have hrow : ∀ y < rows.length,
      (List.range w).map (fun x => rows.flatten.getD (y * w + x) 0) = rows.getD y [] := by
    intro y hy
    have hlen : (rows.getD y []).length = w := by
      rw [List.getD_eq_getElem?_getD, List.getElem?_eq_getElem hy]
      exact hu _ (by simp [List.getElem_mem])
    have : ∀ x < w, rows.flatten.getD (y * w + x) 0 = (rows.getD y []).getD x 0 :=
      fun x hx => flatten_getD_uniform w 0 rows y x hu hy hx
    calc (List.range w).map (fun x => rows.flatten.getD (y * w + x) 0)
        = (List.range w).map (fun x => (rows.getD y []).getD x 0) := by
          apply List.map_congr_left
          intro x hx
          exact this x (List.mem_range.mp hx)
      _ = (List.range (rows.getD y []).length).map (fun x => (rows.getD y []).getD x 0) := by
          rw [hlen]
      _ = rows.getD y [] := rangeMap_getD _ 0
  calc (List.range rows.length).map (fun y => (List.range w).map (fun x => rows.flatten.getD (y * w + x) 0))
      = (List.range rows.length).map (fun y => rows.getD y []) := by
        apply List.map_congr_left
        intro y hy
        exact hrow y (List.mem_range.mp hy)
    _ = rows := rangeMap_getD _ []

theorem filter_flatMap {α β : Type} (l : List α) (g : α → List β) (p : β → Bool) :
    (l.flatMap g).filter p = l.flatMap (fun a => (g a).filter p) := by
  induction l with
  | nil => rfl
  | cons hd tl ih => rw [List.flatMap_cons, List.flatMap_cons, List.filter_append, ih]

theorem flatMap_nil_of {α β : Type} (l : List α) (f : α → List β)
    (h : ∀ a ∈ l, f a = []) : l.flatMap f = [] := by
  induction l with
  | nil => rfl
  | cons hd tl ih =>
    rw [List.flatMap_cons, h hd (by simp), List.nil_append]
    exact ih (fun a ha => h a (by simp [ha]))

theorem flatMap_range_single {α : Type} (g : Nat → List α) :
    ∀ (h y : Nat), y < h →
      (List.range h).flatMap (fun q => if q = y then g q else []) = g y := by
  intro h
  induction h with
  | zero => intro y hy; omega
  | succ h ih =>
    intro y hy
    rw [List.range_succ, List.flatMap_append]
    by_cases hyh : y = h
    · subst hyh
      rw [flatMap_nil_of _ _ (fun a ha => if_neg (by
        have := List.mem_range.mp ha; omega))]
      simp
    · rw [ih y (by omega), List.flatMap_cons, if_neg (fun hc => hyh hc.symm)]
      simp

theorem flatMap_congr_left {α β : Type} (l : List α) (f f' : α → List β)
    (h : ∀ a ∈ l, f a = f' a) : l.flatMap f = l.flatMap f' := by
  induction l with
  | nil => rfl
  | cons hd tl ih =>
    rw [List.flatMap_cons, List.flatMap_cons, h hd (by simp),
      ih (fun a ha => h a (by simp [ha]))]

theorem inst_rows_eq_gridOf (blk : List Nat) (w h : Nat) :
    inst_rows blk w h = gridOf blk w h := by
  unfold inst_rows gridOf
  apply List.map_congr_left
  intro y hy
  have hy' : y < h := List.mem_range.mp hy
  unfold tiles_raw_for
  rw [filter_flatMap]
  rw [flatMap_congr_left _ _
    (fun q => if q = y then (List.range w).map
      (fun x => (x, q, blkAt (blkNorm blk w h) (q * w + x))) else [])
    (by
      intro q _
      dsimp only
      by_cases hq : q = y
      · rw [if_pos hq]
        apply List.filter_eq_self.mpr
        intro e he
        obtain ⟨x, _, rfl⟩ := mem_range_map _ _ _ he
        simpa using hq
      · rw [if_neg hq]
        apply List.filter_eq_nil_iff.mpr
        intro e he
        obtain ⟨x, _, rfl⟩ := mem_range_map _ _ _ he
        simpa using hq)]
  rw [flatMap_range_single _ h y hy']
  rw [List.map_map]
  apply List.map_congr_left
  intro x hx
  have hx' : x < w := List.mem_range.mp hx
  have hb : y * w + x < w * h := by
    have h1 : y * w + x < (y + 1) * w := by
      have : (y + 1) * w = y * w + w := by ring
      omega
    have h2 : (y + 1) * w ≤ h * w := Nat.mul_le_mul_right w hy'
    have h3 : h * w = w * h := Nat.mul_comm h w
    omega
  simp only [Function.comp_def]
  exact blkNorm_getD blk w h (y * w + x) hb

/-- C2: for an overworld `MapRecord` whose stored block grid
(`maps.blk_data`, re-chunked into rows) has rows `[r0, …, r_{h-1}]`, tile
instantiation — which reads `tiles_raw`, built from the *non-inverted* asset
bytes, each block row spanning two tile rows — consumes the block rows in
reversed order `r_{h-1}, …, r0`; for a non-overworld map the row order is
unchanged.  `inst_rows` is the per-`y` block-row sequence of the `tiles_raw`
entries that instantiation expands. -/
theorem C2_overworld_inversion (blk : List Nat) (w h : Nat) :
    inst_rows blk w h = (map_record_rows blk w h true).reverse ∧
    inst_rows blk w h = map_record_rows blk w h false := by
  have hgrid := inst_rows_eq_gridOf blk w h
  have huni : ∀ r ∈ (gridOf blk w h).reverse, r.length = w := by
    intro r hr
    obtain ⟨q, _, rfl⟩ := mem_range_map _ _ _ (List.mem_reverse.mp hr)
    simp
  have hlen : ((gridOf blk w h).reverse).length = h := by simp [gridOf]
  have hinv : gridOf (invert_blk blk w h) w h = (gridOf blk w h).reverse := by
    unfold invert_blk
    have hg := gridOf_flatten w ((gridOf blk w h).reverse) huni
    rw [hlen] at hg
    exact hg
  constructor
  · rw [hgrid]
    unfold map_record_rows maps_blk_data
    rw [if_pos rfl, hinv, List.reverse_reverse]
  · rw [hgrid]
    unfold map_record_rows maps_blk_data
    simp

/-! ## C3 — deduplication invariants -/

theorem emptyStore_WF : StoreWF emptyStore := by
  refine ⟨by simp [emptyStore], by simp [emptyStore], ?_, by simp [emptyStore]⟩
  intro p hp
  simp [emptyStore] at hp

theorem dictGet_eq_none_iff {κ α : Type} [BEq κ] [LawfulBEq κ] (l : List (κ × α)) (k : κ) :
    dictGet l k = none ↔ k ∉ l.map (·.1) := by
  unfold dictGet
  rw [Option.map_eq_none', List.find?_eq_none]
  constructor
  · intro h hk
    obtain ⟨p, hp, hp1⟩ := List.mem_map.mp hk
    exact absurd (by simp [hp1]) (h p hp)
  · intro h p hp hbeq
    exact h (List.mem_map.mpr ⟨p, hp, by simpa using hbeq⟩)

theorem dictGet_key_mem {κ α : Type} [BEq κ] [LawfulBEq κ] (l : List (κ × α)) (k : κ) (v : α)
    (h : dictGet l k = some v) : (k, v) ∈ l := by
  unfold dictGet at h
  cases hf : l.find? (fun p => p.1 == k) with
  | none => rw [hf] at h; exact absurd h (by simp)
  | some p =>
    rw [hf] at h
    simp at h
    have hk : p.1 = k := by simpa using List.find?_some hf
    have hv : p.2 = v := h
    have := List.mem_of_find?_eq_some hf
    rwa [← hk, ← hv, Prod.mk.eta]

theorem intern_tile_images (st : Store) (ts bi pos : Nat) (img : Image) :
    ((intern st ts bi pos img).1.tile_images.length = st.tile_images.length ∧
      (intern st ts bi pos img).1.image_hash_to_id = st.image_hash_to_id ∧
      dictGet st.image_hash_to_id (get_image_hash img) = some (intern st ts bi pos img).2) ∨
    ((intern st ts bi pos img).1.tile_images.length = st.tile_images.length + 1 ∧
      (intern st ts bi pos img).1.image_hash_to_id
        = (get_image_hash img, st.tile_images.length + 1) :: st.image_hash_to_id ∧
      dictGet st.image_hash_to_id (get_image_hash img) = none ∧
      (intern st ts bi pos img).2 = st.tile_images.length + 1) := by
  unfold intern
  cases h : dictGet st.image_hash_to_id (get_image_hash img) with
  | some id =>
    dsimp only
    exact Or.inl ⟨rfl, rfl, rfl⟩
  | none =>
    dsimp only
    exact Or.inr ⟨by simp, rfl, rfl, rfl⟩

theorem intern_WF (st : Store) (ts bi pos : Nat) (img : Image) (hwf : StoreWF st) :
    StoreWF (intern st ts bi pos img).1 := by
  obtain ⟨hk, hv, hb, hl⟩ := hwf
  rcases intern_tile_images st ts bi pos img with ⟨h1, h2, _⟩ | ⟨h1, h2, h3, _⟩
  · exact ⟨h2 ▸ hk, h2 ▸ hv, fun p hp => h1 ▸ hb p (h2 ▸ hp), by rw [h1, h2, hl]⟩
  · refine ⟨?_, ?_, ?_, ?_⟩
    · rw [h2, List.map_cons]
      refine List.nodup_cons.mpr ⟨?_, hk⟩
      exact (dictGet_eq_none_iff _ _).mp h3
    · rw [h2, List.map_cons]
      refine List.nodup_cons.mpr ⟨?_, hv⟩
      intro hmem
      obtain ⟨p, hp, hp2⟩ := List.mem_map.mp hmem
      have := hb p hp
      omega
    · intro p hp
      rw [h2] at hp
      rw [h1]
      rcases List.mem_cons.mp hp with rfl | hp2
      · simp
      · have := hb p hp2
        omega
    · rw [h1, h2, List.length_cons, hl]

theorem intern_stable (st : Store) (ts bi pos : Nat) (img im : Image) (id : Nat)
    (h : dictGet st.image_hash_to_id im = some id) :
    dictGet (intern st ts bi pos img).1.image_hash_to_id im = some id := by
  rcases intern_tile_images st ts bi pos img with ⟨_, h2, _⟩ | ⟨_, h2, h3, _⟩
  · rw [h2]; exact h
  · rw [h2]
    unfold dictGet
    rw [List.find?_cons_of_neg]
    · exact h
    · simp only [beq_iff_eq]
      intro hc
      rw [hc] at h3
      rw [h3] at h
      exact absurd h (by simp)

theorem intern_ret_lookup (st : Store) (ts bi pos : Nat) (img : Image) :
    dictGet (intern st ts bi pos img).1.image_hash_to_id (get_image_hash img)
      = some (intern st ts bi pos img).2 := by
  rcases intern_tile_images st ts bi pos img with ⟨_, h2, h3⟩ | ⟨_, h2, _, h4⟩
  · rw [h2]; exact h3
  · rw [h2, h4]
    unfold dictGet
    rw [List.find?_cons_of_pos _ (by simp)]
    rfl

theorem runInterns_stable :
    ∀ (calls : List (Nat × Nat × Nat × Image)) (st : Store) (im : Image) (id : Nat),
      dictGet st.image_hash_to_id im = some id →
      dictGet (runInterns st calls).1.image_hash_to_id im = some id := by
  intro calls
  induction calls with
  | nil => intro st im id h; exact h
  | cons c rest ih =>
    intro st im id h
    exact ih _ im id (intern_stable st c.1 c.2.1 c.2.2.1 c.2.2.2 im id h)

theorem runInterns_length (calls : List (Nat × Nat × Nat × Image)) :
    ∀ st : Store, (runInterns st calls).2.length = calls.length := by
  induction calls with
  | nil => intro st; rfl
  | cons c rest ih => intro st; simp [runInterns, ih]

theorem runInterns_WF (calls : List (Nat × Nat × Nat × Image)) :
    ∀ st : Store, StoreWF st → StoreWF (runInterns st calls).1 := by
  induction calls with
  | nil => intro st h; exact h
  | cons c rest ih =>
    intro st h
    exact ih _ (intern_WF st c.1 c.2.1 c.2.2.1 c.2.2.2 h)

theorem runInterns_lookup_at (calls : List (Nat × Nat × Nat × Image)) :
    ∀ (st : Store) (i : Nat), i < calls.length →
      dictGet (runInterns st calls).1.image_hash_to_id
          (get_image_hash (calls.getD i default).2.2.2)
        = some ((runInterns st calls).2.getD i 0) := by
  induction calls with
  | nil => intro st i hi; simp at hi
  | cons c rest ih =>
    intro st i hi
    cases i with
    | zero =>
      simp only [runInterns, List.getD_cons_zero]
      exact runInterns_stable rest _ _ _
        (intern_ret_lookup st c.1 c.2.1 c.2.2.1 c.2.2.2)
    | succ i' =>
      simp only [runInterns, List.getD_cons_succ]
      exact ih _ i' (by simpa using hi)

theorem runInterns_count (calls : List (Nat × Nat × Nat × Image)) :
    ∀ st : Store,
      (runInterns st calls).1.tile_images.length
        = st.tile_images.length +
          ((calls.map (fun c => get_image_hash c.2.2.2)).toFinset \ (seenKeys st).toFinset).card := by
  induction calls with
  | nil => intro st; simp [runInterns]
  | cons c rest ih =>
    intro st
    have hrun : (runInterns st (c :: rest)).1 = (runInterns (intern st c.1 c.2.1 c.2.2.1 c.2.2.2).1 rest).1 := rfl
    rw [hrun, ih]
    rcases intern_tile_images st c.1 c.2.1 c.2.2.1 c.2.2.2 with ⟨h1, h2, h3⟩ | ⟨h1, h2, h3, _⟩
    · have hkeys : seenKeys (intern st c.1 c.2.1 c.2.2.1 c.2.2.2).1 = seenKeys st := by
        unfold seenKeys; rw [h2]
      have hmem : get_image_hash c.2.2.2 ∈ (seenKeys st).toFinset := by
        rw [List.mem_toFinset]
        exact List.mem_map.mpr ⟨_, dictGet_key_mem _ _ _ h3, rfl⟩
      rw [h1, hkeys, List.map_cons, List.toFinset_cons,
        Finset.insert_sdiff_of_mem _ hmem]
    · have hkeys : seenKeys (intern st c.1 c.2.1 c.2.2.1 c.2.2.2).1
          = get_image_hash c.2.2.2 :: seenKeys st := by
        unfold seenKeys; rw [h2]; rfl
      have hnotmem : get_image_hash c.2.2.2 ∉ (seenKeys st).toFinset := by
        rw [List.mem_toFinset]
        exact (dictGet_eq_none_iff _ _).mp h3
      rw [h1, hkeys, List.map_cons, List.toFinset_cons, List.toFinset_cons]
      rw [Finset.insert_sdiff_of_not_mem _ hnotmem, Finset.sdiff_insert]
      set A := (rest.map (fun c => get_image_hash c.2.2.2)).toFinset \ (seenKeys st).toFinset with hA
      by_cases hin : get_image_hash c.2.2.2 ∈ A
      · rw [Finset.card_erase_of_mem hin, Finset.insert_eq_self.mpr hin]
        have hpos : 0 < A.card := Finset.card_pos.mpr ⟨_, hin⟩
        omega
      · rw [Finset.erase_eq_of_not_mem hin, Finset.card_insert_of_not_mem hin]
        omega

/-- C3: the dedup store assigns ids so that two intern calls receive the
same id exactly when their images have identical pixel content, and after
any sequence of `N` intern calls containing exactly `K` distinct pixel
contents exactly `K` canonical images exist (`tile_images` has `K` rows). -/
theorem C3_dedup_store (calls : List (Nat × Nat × Nat × Image)) :
    (runInterns emptyStore calls).2.length = calls.length ∧
    (∀ i j, i < calls.length → j < calls.length →
      ((runInterns emptyStore calls).2.getD i 0 = (runInterns emptyStore calls).2.getD j 0 ↔
        (calls.getD i default).2.2.2 = (calls.getD j default).2.2.2)) ∧
    (runInterns emptyStore calls).1.tile_images.length
      = (calls.map (fun c => c.2.2.2)).dedup.length := by
  refine ⟨runInterns_length calls emptyStore, ?_, ?_⟩
  · intro i j hi hj
    have hWF := runInterns_WF calls emptyStore emptyStore_WF
    have li := runInterns_lookup_at calls emptyStore i hi
    have lj := runInterns_lookup_at calls emptyStore j hj
    constructor
    · intro hid
      rw [hid] at li
      have mi := dictGet_key_mem _ _ _ li
      have mj := dictGet_key_mem _ _ _ lj
      have heq := List.inj_on_of_nodup_map hWF.2.1 mi mj rfl
      have := congrArg Prod.fst heq
      simpa [get_image_hash] using this
    · intro him
      simp only [get_image_hash] at li lj
      rw [him] at li
      rw [li] at lj
      exact Option.some_inj.mp lj
  · have hc := runInterns_count calls emptyStore
    have hk : seenKeys emptyStore = [] := rfl
    rw [hk] at hc
    simp only [List.toFinset_nil, Finset.sdiff_empty, get_image_hash] at hc
    rw [hc]
    have : (emptyStore.tile_images.length) = 0 := rfl
    rw [this, Nat.zero_add, List.card_toFinset]

set_option maxRecDepth 10000 in
/-- Witness for C3 on three intern calls with two distinct images: calls 0
and 1 share an id (same content), and exactly 2 canonical images exist. -/
theorem C3_witness :
    ((runInterns emptyStore
        [(1, 0, 0, whiteImage), (1, 0, 1, whiteImage), (1, 0, 2, ([[(0, 0, 0)]] : Image))]).2.getD 0 0
      = (runInterns emptyStore
        [(1, 0, 0, whiteImage), (1, 0, 1, whiteImage), (1, 0, 2, ([[(0, 0, 0)]] : Image))]).2.getD 1 0 ↔
      (([(1, 0, 0, whiteImage), (1, 0, 1, whiteImage), (1, 0, 2, ([[(0, 0, 0)]] : Image))].getD 0 default).2.2.2
        = ([(1, 0, 0, whiteImage), (1, 0, 1, whiteImage), (1, 0, 2, ([[(0, 0, 0)]] : Image))].getD 1 default).2.2.2)) ∧
    (runInterns emptyStore
        [(1, 0, 0, whiteImage), (1, 0, 1, whiteImage), (1, 0, 2, ([[(0, 0, 0)]] : Image))]).1.tile_images.length
      = ([(1, 0, 0, whiteImage), (1, 0, 1, whiteImage), (1, 0, 2, ([[(0, 0, 0)]] : Image))].map
          (fun c => c.2.2.2)).dedup.length :=
  ⟨(C3_dedup_store [(1, 0, 0, whiteImage), (1, 0, 1, whiteImage),
      (1, 0, 2, ([[(0, 0, 0)]] : Image))]).2.1 0 1 (by decide) (by decide),
   (C3_dedup_store [(1, 0, 0, whiteImage), (1, 0, 1, whiteImage),
      (1, 0, 2, ([[(0, 0, 0)]] : Image))]).2.2⟩

/-! ## C9 — idempotent recompute -/

theorem shiftT_mapId (c : Nat → Int × Int) (t : Tile) : (shiftT c t).mapId = t.mapId := rfl

theorem update_eq_shift (db : ZoneDB) (mid : Nat) (dx dy : Int) :
    update_map_coordinates db mid dx dy
      = shiftDB (fun m => if m = mid then (dx, dy) else (0, 0)) db := by
  unfold update_map_coordinates shiftDB
  congr 1
  apply List.map_congr_left
  intro t _
  unfold shiftT
  dsimp only
  by_cases h : t.mapId = mid
  · rw [if_pos (by simpa using h), if_pos h]
  · rw [if_neg (by simpa using h), if_neg h]
    simp

theorem shift_comp (c1 c2 : Nat → Int × Int) (db : ZoneDB) :
    shiftDB c2 (shiftDB c1 db)
      = shiftDB (fun m => ((c1 m).1 + (c2 m).1, (c1 m).2 + (c2 m).2)) db := by
  unfold shiftDB
  congr 1
  rw [List.map_map]
  apply List.map_congr_left
  intro t _
  unfold shiftT
  simp [Function.comp_def, Int.add_assoc]

theorem shift_congr (c1 c2 : Nat → Int × Int) (db : ZoneDB) (h : ∀ m, c1 m = c2 m) :
    shiftDB c1 db = shiftDB c2 db := by
  unfold shiftDB
  congr 1
  apply List.map_congr_left
  intro t _
  unfold shiftT
  rw [h]

theorem shift_zero (c : Nat → Int × Int) (db : ZoneDB) (h : ∀ m, c m = (0, 0)) :
    shiftDB c db = db := by
  unfold shiftDB
  have hmap : db.tiles.map (shiftT c) = db.tiles := by
    have h1 : db.tiles.map (shiftT c) = db.tiles.map id := by
      apply List.map_congr_left
      intro t _
      unfold shiftT
      rw [h]
      simp
    rw [h1, List.map_id]
  rw [hmap]

theorem tilesOf_shift (c : Nat → Int × Int) (db : ZoneDB) (mid : Nat) :
    tilesOf (shiftDB c db) mid = (tilesOf db mid).map (shiftT c) := by
  unfold tilesOf shiftDB
  rw [List.filter_map]
  rfl

theorem foldl_max_add (a : Int) :
    ∀ (xs : List Int) (x : Int), (xs.map (· + a)).foldl max (x + a) = xs.foldl max x + a := by
  intro xs
  induction xs with
  | nil => intro x; rfl
  | cons y ys ih =>
    intro x
    simp only [List.map_cons, List.foldl_cons]
    rw [show max (x + a) (y + a) = max x y + a from max_add_add_right x y a, ih]

theorem foldl_min_add (a : Int) :
    ∀ (xs : List Int) (x : Int), (xs.map (· + a)).foldl min (x + a) = xs.foldl min x + a := by
  intro xs
  induction xs with
  | nil => intro x; rfl
  | cons y ys ih =>
    intro x
    simp only [List.map_cons, List.foldl_cons]
    rw [show min (x + a) (y + a) = min x y + a from min_add_add_right x y a, ih]

theorem listMax_map_add (xs : List Int) (a : Int) :
    listMax (xs.map (· + a)) = (listMax xs).map (· + a) := by
  cases xs with
  | nil => rfl
  | cons x ys => simp [listMax, foldl_max_add]

theorem listMin_map_add (xs : List Int) (a : Int) :
    listMin (xs.map (· + a)) = (listMin xs).map (· + a) := by
  cases xs with
  | nil => rfl
  | cons x ys => simp [listMin, foldl_min_add]

theorem tilesOf_map_x_shift (c : Nat → Int × Int) (db : ZoneDB) (mid : Nat) :
    ((tilesOf (shiftDB c db) mid).map (·.x)) = ((tilesOf db mid).map (·.x)).map (· + (c mid).1) := by
  rw [tilesOf_shift, List.map_map, List.map_map]
  apply List.map_congr_left
  intro t ht
  have hmid : t.mapId = mid := by simpa using (List.mem_filter.mp ht).2
  simp [Function.comp_def, shiftT, hmid]

theorem tilesOf_map_y_shift (c : Nat → Int × Int) (db : ZoneDB) (mid : Nat) :
    ((tilesOf (shiftDB c db) mid).map (·.y)) = ((tilesOf db mid).map (·.y)).map (· + (c mid).2) := by
  rw [tilesOf_shift, List.map_map, List.map_map]
  apply List.map_congr_left
  intro t ht
  have hmid : t.mapId = mid := by simpa using (List.mem_filter.mp ht).2
  simp [Function.comp_def, shiftT, hmid]

theorem get_map_dimensions_shift (c : Nat → Int × Int) (db : ZoneDB) (mid : Nat) :
    get_map_dimensions (shiftDB c db) mid = get_map_dimensions db mid := by
  unfold get_map_dimensions
  rw [tilesOf_map_x_shift, tilesOf_map_y_shift, listMax_map_add, listMin_map_add,
    listMax_map_add, listMin_map_add]
  cases h1 : listMax ((tilesOf db mid).map (·.x)) <;>
    cases h2 : listMin ((tilesOf db mid).map (·.x)) <;>
      cases h3 : listMax ((tilesOf db mid).map (·.y)) <;>
        cases h4 : listMin ((tilesOf db mid).map (·.y)) <;> simp

theorem min_xy_shift (c : Nat → Int × Int) (db : ZoneDB) (mid : Nat) :
    min_xy (shiftDB c db) mid
      = (min_xy db mid).map (fun p => (p.1 + (c mid).1, p.2 + (c mid).2)) := by
  unfold min_xy
  rw [tilesOf_map_x_shift, tilesOf_map_y_shift, listMin_map_add, listMin_map_add]
  cases h1 : listMin ((tilesOf db mid).map (·.x)) <;>
    cases h2 : listMin ((tilesOf db mid).map (·.y)) <;> simp

theorem calculate_map_offset_shift (c : Nat → Int × Int) (db : ZoneDB)
    (from_id to_id : Nat) (d : String) (k : Int) :
    calculate_map_offset (shiftDB c db) from_id to_id d k
      = calculate_map_offset db from_id to_id d k := by
  unfold calculate_map_offset
  rw [get_map_dimensions_shift, get_map_dimensions_shift]

theorem connections_for_shift (c : Nat → Int × Int) (db : ZoneDB) (nm : Option String) :
    connections_for (shiftDB c db) nm = connections_for db nm := rfl

theorem get_map_name_shift (c : Nat → Int × Int) (db : ZoneDB) (mid : Nat) :
    get_map_name (shiftDB c db) mid = get_map_name db mid := rfl

theorem get_map_id_by_name_shift (c : Nat → Int × Int) (db : ZoneDB) (n : String) :
    get_map_id_by_name (shiftDB c db) n = get_map_id_by_name db n := rfl

theorem process_edges_shift (c : Nat → Int × Int) (db : ZoneDB) (cur_id : Nat)
    (cur_name : Option String) (processed : List Nat) (ox oy : Int) :
    ∀ es : List (String × String × Int),
      process_edges (shiftDB c db) cur_id cur_name processed ox oy es
        = process_edges db cur_id cur_name processed ox oy es := by
  intro es
  induction es with
  | nil => rfl
  | cons hd tl ih =>
    obtain ⟨cname, d, k⟩ := hd
    simp only [process_edges, get_map_id_by_name_shift, calculate_map_offset_shift, ih]

theorem solveLoop_mono :
    ∀ (f g : Nat) (db : ZoneDB) (p : List Nat) (q : List (Nat × Int × Int))
      (r : ZoneDB × List Nat),
      solveLoop db p q f = some r → f ≤ g → solveLoop db p q g = some r := by
  intro f
  induction f with
  | zero => intro g db p q r h _; simp [solveLoop] at h
  | succ f ih =>
    intro g db p q r h hle
    obtain ⟨g', rfl⟩ : ∃ g', g = g' + 1 := ⟨g - 1, by omega⟩
    cases q with
    | nil => exact h
    | cons head rest =>
      obtain ⟨mid, ox, oy⟩ := head
      simp only [solveLoop] at h ⊢
      by_cases hm : mid ∈ p
      · rw [if_pos hm] at h ⊢
        exact ih g' db p rest r h (by omega)
      · rw [if_neg hm] at h ⊢
        cases hmn : min_xy db mid with
        | none => rw [hmn] at h; exact absurd h (by simp)
        | some mn =>
          simp only [hmn] at h ⊢
          set db2 := update_map_coordinates (update_map_coordinates db mid (-mn.1) (-mn.2)) mid ox oy with hdb2
          cases hpe : process_edges db2 mid (get_map_name db2 mid) (mid :: p) ox oy
              (connections_for db2 (get_map_name db2 mid)) with
          | none => rw [hpe] at h; exact absurd h (by simp)
          | some nq =>
            rw [hpe] at h
            dsimp only at h ⊢
            exact ih g' db2 (mid :: p) (rest ++ nq) r h (by omega)

theorem solveLoop_support :
    ∀ (f : Nat) (db : ZoneDB) (p : List Nat) (q : List (Nat × Int × Int))
      (e : ZoneDB) (pf : List Nat),
      solveLoop db p q f = some (e, pf) →
      ∃ c : Nat → Int × Int, e = shiftDB c db ∧
        (∀ m ∈ p, c m = (0, 0)) ∧ (∀ m, m ∉ pf → c m = (0, 0)) ∧ (∀ m ∈ p, m ∈ pf) := by
  intro f
  induction f with
  | zero => intro db p q e pf h; simp [solveLoop] at h
  | succ f ih =>
    intro db p q e pf h
    cases q with
    | nil =>
      simp only [solveLoop, Option.some_inj, Prod.mk.injEq] at h
      obtain ⟨h1, h2⟩ := h
      subst h1; subst h2
      exact ⟨fun _ => (0, 0), (shift_zero _ _ (fun _ => rfl)).symm,
        fun _ _ => rfl, fun _ _ => rfl, fun m hm => hm⟩
    | cons head rest =>
      obtain ⟨mid, ox, oy⟩ := head
      simp only [solveLoop] at h
      by_cases hm : mid ∈ p
      · rw [if_pos hm] at h
        exact ih db p rest e pf h
      · rw [if_neg hm] at h
        cases hmn : min_xy db mid with
        | none => rw [hmn] at h; exact absurd h (by simp)
        | some mn =>
          simp only [hmn] at h
          set db2 := update_map_coordinates (update_map_coordinates db mid (-mn.1) (-mn.2)) mid ox oy with hdb2
          cases hpe : process_edges db2 mid (get_map_name db2 mid) (mid :: p) ox oy
              (connections_for db2 (get_map_name db2 mid)) with
          | none => rw [hpe] at h; exact absurd h (by simp)
          | some nq =>
            rw [hpe] at h
            dsimp only at h
            obtain ⟨c', he, hcp, hcnf, hsub⟩ := ih db2 (mid :: p) (rest ++ nq) e pf h
            have hδ : db2 = shiftDB (fun m => if m = mid then (-mn.1 + ox, -mn.2 + oy) else (0, 0)) db := by
              rw [hdb2, update_eq_shift, update_eq_shift, shift_comp]
              apply shift_congr
              intro m
              by_cases h' : m = mid <;> simp [h']
            refine ⟨fun m => ((if m = mid then (-mn.1 + ox, -mn.2 + oy) else (0, 0)).1 + (c' m).1,
                              (if m = mid then (-mn.1 + ox, -mn.2 + oy) else (0, 0)).2 + (c' m).2),
              ?_, ?_, ?_, ?_⟩
            · rw [he, hδ, shift_comp]
            · intro m hmp
              have hne : m ≠ mid := fun hc => hm (hc ▸ hmp)
              have hc0 : c' m = (0, 0) := hcp m (List.mem_cons_of_mem _ hmp)
              dsimp only
              rw [if_neg hne, hc0]
              rfl
            · intro m hmf
              have hmidpf : mid ∈ pf := hsub mid (List.mem_cons_self _ _)
              have hne : m ≠ mid := fun hc => hmf (hc ▸ hmidpf)
              have hc0 : c' m = (0, 0) := hcnf m hmf
              dsimp only
              rw [if_neg hne, hc0]
              rfl
            · intro m hmp
              exact hsub m (List.mem_cons_of_mem _ hmp)

theorem solveLoop_shift_run :
    ∀ (f : Nat) (db : ZoneDB) (c : Nat → Int × Int) (p : List Nat)
      (q : List (Nat × Int × Int)) (e : ZoneDB) (pf : List Nat),
      (∀ m ∈ p, c m = (0, 0)) →
      solveLoop db p q f = some (e, pf) →
      ∃ c', solveLoop (shiftDB c db) p q f = some (shiftDB c' e, pf) ∧
        (∀ m ∈ pf, c' m = (0, 0)) ∧ (∀ m, m ∉ pf → c' m = c m) := by
  intro f
  induction f with
  | zero => intro db c p q e pf _ h; simp [solveLoop] at h
  | succ f ih =>
    intro db c p q e pf hp h
    cases q with
    | nil =>
      simp only [solveLoop, Option.some_inj, Prod.mk.injEq] at h
      obtain ⟨h1, h2⟩ := h
      subst h1; subst h2
      exact ⟨c, rfl, fun m hm => hp m hm, fun m _ => rfl⟩
    | cons head rest =>
      obtain ⟨mid, ox, oy⟩ := head
      simp only [solveLoop] at h ⊢
      by_cases hm : mid ∈ p
      · rw [if_pos hm] at h ⊢
        exact ih db c p rest e pf hp h
      · rw [if_neg hm] at h ⊢
        cases hmn : min_xy db mid with
        | none => rw [hmn] at h; exact absurd h (by simp)
        | some mn =>
          rw [hmn] at h
          dsimp only at h
          rw [min_xy_shift, hmn]
          simp only [Option.map_some']
          set db2 := update_map_coordinates (update_map_coordinates db mid (-mn.1) (-mn.2)) mid ox oy with hdb2
          set c1 : Nat → Int × Int := fun m => if m = mid then (0, 0) else c m with hc1
          have hdb2' :
              update_map_coordinates (update_map_coordinates (shiftDB c db) mid
                  (-(mn.1 + (c mid).1)) (-(mn.2 + (c mid).2))) mid ox oy
                = shiftDB c1 db2 := by
            rw [hdb2]
            simp only [update_eq_shift, shift_comp]
            apply shift_congr
            intro m
            by_cases h' : m = mid
            · subst h'
              simp [hc1]
            · simp [hc1, h']
          rw [hdb2']
          have hname : get_map_name (shiftDB c1 db2) mid = get_map_name db2 mid := rfl
          have hconn : ∀ nm, connections_for (shiftDB c1 db2) nm = connections_for db2 nm :=
            fun _ => rfl
          rw [hname]
          cases hpe : process_edges db2 mid (get_map_name db2 mid) (mid :: p) ox oy
              (connections_for db2 (get_map_name db2 mid)) with
          | none =>
            rw [hpe] at h
            exact absurd h (by simp)
          | some nq =>
            rw [hpe] at h
            dsimp only at h
            have hp1 : ∀ m ∈ mid :: p, c1 m = (0, 0) := by
              intro m hmem
              rcases List.mem_cons.mp hmem with rfl | hmem2
              · simp [hc1]
              · have hne : m ≠ mid := fun hc => hm (hc ▸ hmem2)
                simp [hc1, hne]
                exact hp m hmem2
            obtain ⟨c'', hrun, hc''pf, hc''out⟩ := ih db2 c1 (mid :: p) (rest ++ nq) e pf hp1 h
            have hmidpf : mid ∈ pf := by
              obtain ⟨_, _, _, _, hsub⟩ := solveLoop_support f db2 (mid :: p) (rest ++ nq) e pf h
              exact hsub mid (List.mem_cons_self _ _)
            rw [hconn, process_edges_shift, hpe]
            dsimp only
            refine ⟨c'', ?_, hc''pf, ?_⟩
            · exact hrun
            · intro m hmf
              have hne : m ≠ mid := fun hc => hmf (hc ▸ hmidpf)
              rw [hc''out m hmf, hc1]
              simp [hne]

/-- C9: running the coordinate solver a second time, from the state the
first run produced, yields exactly the same state and processed set: each
run resets every processed map's tiles to local zero-based coordinates
(subtracting the current minima) before adding the freshly computed offset,
and the computed offsets depend only on translation-invariant dimensions, so
offsets never accumulate across runs. -/
theorem C9_idempotent_recompute (db : ZoneDB) (f1 f2 : Nat) (db1 : ZoneDB) (p1 : List Nat)
    (db2 : ZoneDB) (p2 : List Nat)
    (h1 : process_map_connections db f1 = some (db1, p1))
    (h2 : process_map_connections db1 f2 = some (db2, p2)) :
    db2 = db1 ∧ p2 = p1 := by
  unfold process_map_connections at h1 h2
  obtain ⟨c0, he, _, hc0, _⟩ :=
    solveLoop_support f1 db [] [(PALLET_TOWN_MAP_ID, 0, 0)] db1 p1 h1
  obtain ⟨c', hrun, hc'pf, hc'out⟩ :=
    solveLoop_shift_run f1 db c0 [] [(PALLET_TOWN_MAP_ID, 0, 0)] db1 p1 (by simp) h1
  have hzero : ∀ m, c' m = (0, 0) := by
    intro m
    by_cases hm : m ∈ p1
    · exact hc'pf m hm
    · rw [hc'out m hm]; exact hc0 m hm
  rw [shift_zero c' db1 hzero] at hrun
  rw [← he] at hrun
  have hmax1 := solveLoop_mono f1 (max f1 f2) db1 [] [(PALLET_TOWN_MAP_ID, 0, 0)] (db1, p1)
    hrun (le_max_left _ _)
  have hmax2 := solveLoop_mono f2 (max f1 f2) db1 [] [(PALLET_TOWN_MAP_ID, 0, 0)] (db2, p2)
    h2 (le_max_right _ _)
  rw [hmax1] at hmax2
  have heq := Option.some_inj.mp hmax2
  obtain ⟨ha, hb⟩ := Prod.mk.injEq .. ▸ heq
  exact ⟨ha.symm, hb.symm⟩

/-- Witness for C9 on the one-map database: rerunning reproduces the state. -/
theorem C9_witness :
    process_map_connections soloDB 3 = some (soloDB, [0]) ∧
    soloDB = soloDB ∧ ([0] : List Nat) = [0] :=
  ⟨by decide,
   C9_idempotent_recompute soloDB 3 3 soloDB [0] soloDB [0] (by decide) (by decide)⟩
